import Mathlib

/-!
Verification of the uwsm session lifecycle engine (src/uwsm/main.py) against
its specification.  Python data is shallowly embedded: environment mappings
(Python dicts) become association lists `List (String × String)` operated on
by faithful dict primitives, sets of variable names become `Finset String`,
text files become lists of lines, and regular-expression validators become
executable boolean matchers with the same match semantics.
-/

set_option autoImplicit false

namespace Uwsm

/-! ## Variable name sets (class Varnames, main.py lines 62-89) -/

namespace Varnames

def always_export : Finset String :=
  {"XDG_SESSION_ID", "XDG_SESSION_TYPE", "XDG_VTNR", "XDG_CURRENT_DESKTOP",
   "XDG_SESSION_DESKTOP", "XDG_MENU_PREFIX", "PATH"}

def never_export : Finset String :=
  {"PWD", "LS_COLORS", "INVOCATION_ID", "SHLVL", "SHELL"}

def always_unset : Finset String := {"DISPLAY", "WAYLAND_DISPLAY"}

def always_cleanup : Finset String :=
  {"DISPLAY", "WAYLAND_DISPLAY", "XDG_SESSION_ID", "XDG_SESSION_TYPE",
   "XDG_VTNR", "XDG_CURRENT_DESKTOP", "XDG_SESSION_DESKTOP",
   "XDG_MENU_PREFIX", "PATH", "XCURSOR_THEME", "XCURSOR_SIZE", "LANG"}

def never_cleanup : Finset String :=
  {"SSH_AGENT_LAUNCHER", "SSH_AUTH_SOCK", "SSH_AGENT_PID"}

end Varnames

/-! ## Shell variable name validation (Val.sh_varname, lines 118-120)

The compiled pattern is
  \A([a-zA-Z_][a-zA-Z0-9_]+|[a-zA-Z][a-zA-Z0-9_]*)\Z
used with `.search`; anchored on both sides it is a full match of the
alternation.  Character classes are ASCII-only. -/

def isAsciiLetter (c : Char) : Bool :=
  (65 ≤ c.toNat && c.toNat ≤ 90) || (97 ≤ c.toNat && c.toNat ≤ 122)

def isAsciiDigit (c : Char) : Bool := 48 ≤ c.toNat && c.toNat ≤ 57

def isWordChar (c : Char) : Bool := isAsciiLetter c || isAsciiDigit c || c = '_'

def shVarnameMatch (s : String) : Bool :=
  match s.data with
  | [] => false
  | c :: rest =>
    ((isAsciiLetter c || c = '_') && !rest.isEmpty && rest.all isWordChar)
    || (isAsciiLetter c && rest.all isWordChar)

/-! ## Environment mappings as Python dicts

A dict is an association list with pairwise distinct keys; `dictUpdate`
replaces the binding of the key in place (or appends), `dictPop` removes
the binding of the key — the semantics of `d[k] = v` and `d.pop(k)`. -/

abbrev EnvMap := List (String × String)

def envKeys (m : EnvMap) : List String := m.map Prod.fst

def dictUpdate : EnvMap → String → String → EnvMap
  | [], k, v => [(k, v)]
  | (k0, v0) :: rest, k, v =>
    if k0 = k then (k, v) :: rest else (k0, v0) :: dictUpdate rest k v

def dictPop : EnvMap → String → EnvMap
  | [], _ => []
  | (k0, v0) :: rest, k => if k0 = k then rest else (k0, v0) :: dictPop rest k

/-- filter_varnames (lines 2491-2520), dict branch: drops every entry whose
key fails Val.sh_varname (the Python code pops the offending keys from a
copy of the key list, which amounts to filtering the mapping). -/
def filterVarnames (m : EnvMap) : EnvMap := m.filter (fun p => shVarnameMatch p.1)

/-- filter_varnames, list/tuple branch. -/
def filterVarnamesList (l : List String) : List String := l.filter shVarnameMatch

/-! ## Environment diff policy of prepare_env (lines 2598-2631) -/

/-- Line 2600: `set_env = dict(set(env_post.items()) - set(env_pre.items()))`,
the key/value pairs of post that are not pairs of pre, as a dict. -/
def rawSetEnv (envPre envPost : EnvMap) : EnvMap :=
  envPost.filter (fun p => decide (p ∉ envPre))

/-- Line 2607: `sorted(Varnames.always_export - Varnames.never_export - Varnames.always_unset)`. -/
def exportIter : List String :=
  ((Varnames.always_export \ Varnames.never_export) \ Varnames.always_unset).sort (· ≤ ·)

/-- Line 2615: iteration over the set `Varnames.never_export | Varnames.always_unset`.
Python set iteration order is unspecified; the pops commute, so the sorted
order is fixed here. -/
def popIter : List String :=
  (Varnames.never_export ∪ Varnames.always_unset).sort (· ≤ ·)

/-- Loop body of lines 2607-2612: force export of an always_export var that
is present in env_post. -/
def exportStep (envPost : EnvMap) (acc : EnvMap) (var : String) : EnvMap :=
  match envPost.lookup var with
  | some v => dictUpdate acc var v
  | none => acc

/-- set_env as computed by prepare_env lines 2598-2618: raw post-minus-pre
difference, then forced always_export additions, then removal of
never_export and always_unset names. -/
def computeSetEnv (envPre envPost : EnvMap) : EnvMap :=
  popIter.foldl (fun acc var => dictPop acc var)
    (exportIter.foldl (exportStep envPost) (rawSetEnv envPre envPost))

/-- unset_varnames as computed by lines 2620-2626:
`(keys(pre) - keys(post)) ∪ always_unset`, intersected with the names the
systemd user manager currently holds. -/
def computeUnsetVarnames (envPre envPost : EnvMap) (systemdVarnames : Finset String) :
    Finset String :=
  (((envKeys envPre).toFinset \ (envKeys envPost).toFinset) ∪ Varnames.always_unset)
    ∩ systemdVarnames

/-- cleanup_varnames as computed by lines 2629-2631; Python parses
`a | b - c` as `a ∪ (b \ c)`. -/
def computeCleanupVarnames (setEnv : EnvMap) : Finset String :=
  (envKeys setEnv).toFinset ∪ (Varnames.always_cleanup \ Varnames.never_cleanup)

/-! ## cleanup_env variable selection (lines 2678-2734) -/

/-- The set of names cleanup_env unsets (lines 2716-2719).  The Python
expression `current | always_cleanup - never_cleanup & systemd_varnames`
parses as `current ∪ ((always_cleanup \ never_cleanup) ∩ systemd_varnames)`
because `-` and `&` bind tighter than `|`. -/
def cleanupEnvVarnames (currentCleanupVarnames systemdVarnames : Finset String) :
    Finset String :=
  currentCleanupVarnames ∪
    ((Varnames.always_cleanup \ Varnames.never_cleanup) ∩ systemdVarnames)

/-- The set cleanup_env is documented (docstring, lines 2679-2687) and
specified to unset: union the manifests with always_cleanup, subtract
never_cleanup, intersect with the names the manager currently holds. -/
def cleanupEnvVarnamesDoc (currentCleanupVarnames systemdVarnames : Finset String) :
    Finset String :=
  ((currentCleanupVarnames ∪ Varnames.always_cleanup) \ Varnames.never_cleanup)
    ∩ systemdVarnames

/-- toSet as the spec words it: the key/value pairs of post not present in
pre, union the forced-always-export pairs present in post, minus every pair
whose name is in forced-never-export or forced-always-unset.  Written from
the spec for comparison with computeSetEnv (refinement check, C3). -/
def specToSet (envPre envPost : EnvMap) : Finset (String × String) :=
  ((envPost.toFinset \ envPre.toFinset) ∪
      envPost.toFinset.filter (fun p => p.1 ∈ Varnames.always_export)).filter
    (fun p => p.1 ∉ Varnames.never_export ∪ Varnames.always_unset)

/-! ## The cleanup manifest file (prepare_env lines 2633-2649, read in
cleanup_env lines 2705-2711)

A text file is modelled by its list of lines.  Reading collects the
stripped non-empty lines into a set (Python
`{l.strip() for l in f.readlines() if l.strip()}`); writing emits
`"\n".join(sorted(names))`. -/

/-- Python str.strip() with no argument: removes leading and trailing
whitespace (ASCII whitespace modelled). -/
def pyStrip (s : String) : String :=
  String.mk (((s.data.dropWhile isPySpace).reverse.dropWhile isPySpace).reverse)
where isPySpace (c : Char) : Bool :=
  c = ' ' || c = '\t' || c = '\n' || c = '\r' || c = '\x0b' || c = '\x0c'

def readCleanupFile (lines : List String) : Finset String :=
  ((lines.map pyStrip).filter (fun l => l != "")).toFinset

/-- Lines 2646-2649: the file is rewritten with the union of the names that
were already in it and the new cleanup names, sorted. -/
def writeCleanupFile (current cleanupVarnames : Finset String) : List String :=
  (current ∪ cleanupVarnames).sort (· ≤ ·)

/-! ## Unit path validation (Val.unit_ext, lines 114-117)

The compiled pattern is
  [a-zA-Z0-9_:.\\-]+@?\.(service|slice|scope|target|socket|d/[a-zA-Z0-9_:.\\-]+.conf)\Z
used with `.search`: a match may start anywhere but must end at the end of
the string.  The matcher below decides match existence; `.` before `conf`
is the regex any-character-but-newline, exactly as in the source. -/

def isUnitClassChar (c : Char) : Bool :=
  isAsciiLetter c || isAsciiDigit c || c = '_' || c = ':' || c = '.' ||
    c = '\\' || c = '-'

/-- `[a-zA-Z0-9_:.\\-]+.conf\Z`: one or more class characters, then any
character except newline, then the literal conf at the end. -/
def altDConfRest : List Char → Bool
  | [] => false
  | c :: t =>
    isUnitClassChar c &&
      ((match t with
        | [x, 'c', 'o', 'n', 'f'] => x != '\n'
        | _ => false) ||
       altDConfRest t)

/-- The alternation (service|slice|scope|target|socket|d/[class]+.conf),
matched against the remainder up to the end of the string. -/
def unitExtAlt (l : List Char) : Bool :=
  l = "service".data || l = "slice".data || l = "scope".data ||
  l = "target".data || l = "socket".data ||
  (match l with
   | 'd' :: '/' :: r => altDConfRest r
   | _ => false)

/-- `@?\.` followed by the alternation. -/
def unitExtAfterCls : List Char → Bool
  | '@' :: '.' :: rest => unitExtAlt rest
  | '.' :: rest => unitExtAlt rest
  | _ => false

/-- `[class]+@?\.(...)`: one or more class characters then the rest. -/
def unitExtCls : List Char → Bool
  | [] => false
  | c :: t => isUnitClassChar c && (unitExtAfterCls t || unitExtCls t)

/-- `.search`: try the anchored-core match at every start position. -/
def unitExtSearchL : List Char → Bool
  | [] => false
  | c :: t => unitExtCls (c :: t) || unitExtSearchL t

def unitExtSearch (unit : String) : Bool := unitExtSearchL unit.data

def splitOnChar (sep : Char) : List Char → List (List Char)
  | [] => [[]]
  | c :: t =>
    let r := splitOnChar sep t
    if c = sep then [] :: r
    else
      match r with
      | f :: rest => (c :: f) :: rest
      | [] => [[c]]

/-- The fixed allow-list as the claim words it: extension service, slice,
scope, target or socket, or a .conf file inside a .d drop-in directory.
Written from the spec for comparison with unitExtSearch (C7). -/
def specUnitExtAllowed (unit : String) : Bool :=
  decide (".service".data <:+ unit.data) ||
  decide (".slice".data <:+ unit.data) ||
  decide (".scope".data <:+ unit.data) ||
  decide (".target".data <:+ unit.data) ||
  decide (".socket".data <:+ unit.data) ||
  (match splitOnChar '/' unit.data with
   | [dir, file] =>
     decide (".d".data <:+ dir) && decide (".conf".data <:+ file)
   | _ => false)

/-! ## The unit store (update_unit lines 1109-1167, remove_unit 1170-1216)

The on-disk unit tree is modelled as a mapping from unit path to file
content with pairwise distinct paths.  update_unit first validates the
extension, then compares the new content byte-for-byte with the existing
content (missing file reads as "") and writes only on difference,
returning whether a write occurred.  remove_unit validates, then removes
the file if present, reporting whether it did. -/

abbrev UnitStore := List (String × String)

inductive UnitAction where
  | update (unit : String) (data : String)
  | remove (unit : String)

deriving DecidableEq

def unitActionName : UnitAction → String
  | .update u _ => u
  | .remove u => u

def updateUnit (st : UnitStore) (unit data : String) :
    Except String (UnitStore × Bool) :=
  if unitExtSearch unit = false then
    .error ("Trying to update unit with unsupported extension: " ++ unit)
  else
    let oldData := (st.lookup unit).getD ""
    if data = oldData then .ok (st, false)
    else .ok (dictUpdate st unit data, true)

def removeUnit (st : UnitStore) (unit : String) :
    Except String (UnitStore × Bool) :=
  if unitExtSearch unit = false then
    .error ("Trying to remove unit with unsupported extension: " ++ unit)
  else if (st.lookup unit).isSome then .ok (dictPop st unit, true)
  else .ok (st, false)

def applyAction (st : UnitStore) : UnitAction → Except String (UnitStore × Bool)
  | .update u d => updateUnit st u d
  | .remove u => removeUnit st u

/-- A batch of unit reconciliations; the Bool accumulates the global
units_changed flag across the batch. -/
def applyActions : UnitStore → List UnitAction → Except String (UnitStore × Bool)
  | st, [] => .ok (st, false)
  | st, a :: rest =>
    match applyAction st a with
    | .error e => .error e
    | .ok (st1, c1) =>
      match applyActions st1 rest with
      | .error e => .error e
      | .ok (st2, c2) => .ok (st2, c1 || c2)

/-! ## simple_systemd_escape (lines 932-957) -/

/-- UTF-8 encoding of one character, as list of byte values
(Python bytes(string, "utf-8") character by character). -/
def utf8Bytes (c : Char) : List Nat :=
  let n := c.toNat
  if n < 0x80 then [n]
  else if n < 0x800 then [0xC0 + n / 64, 0x80 + n % 64]
  else if n < 0x10000 then
    [0xE0 + n / 4096, 0x80 + n / 64 % 64, 0x80 + n % 64]
  else [0xF0 + n / 262144, 0x80 + n / 4096 % 64, 0x80 + n / 64 % 64,
        0x80 + n % 64]

def hexDigitLower (n : Nat) : Char := "0123456789abcdef".data.getD n '0'

/-- char2cesc (lines 932-934): a c-style "\xXX" sequence per UTF-8 byte,
lowercase hex, always two digits (bytes are below 256). -/
def char2cesc (c : Char) : List Char :=
  (utf8Bytes c).flatMap
    (fun b => ['\\', 'x', hexDigitLower (b / 16), hexDigitLower (b % 16)])

/-- The loop body of simple_systemd_escape: / becomes -, characters with
code point 46, 95, 48-58, 65-90 or 97-122 pass through, everything else
becomes a c-style escape. -/
def escChar (c : Char) : List Char :=
  if c = '/' then ['-']
  else if c.toNat = 46 || c.toNat = 95 || (48 <= c.toNat && c.toNat <= 58) ||
      (65 <= c.toNat && c.toNat <= 90) || (97 <= c.toNat && c.toNat <= 122) then
    [c]
  else char2cesc c

/-- simple_systemd_escape (lines 937-957): with start=true a leading dot is
escaped first; every remaining character goes through the loop body. -/
def simpleSystemdEscape (start : Bool) (s : List Char) : List Char :=
  match start, s with
  | true, '.' :: rest => char2cesc '.' ++ rest.flatMap escChar
  | _, s => s.flatMap escChar

/-! ## The Unit Synthesizer (generate_units, lines 1219-1559)

The session descriptor collects the global state generate_units reads
(wm_id and friends, set at lines 3508-3721, and args.use_session_slice).
The unit texts below are the dedent(...) blocks of the source with
{BIN_NAME}, {BIN_PATH} and {wayland_wm_slice} as parameters. -/

structure WmDescriptor where
  wm_id : String
  wm_name : String
  wm_description : String
  wm_cmdline : List String
  wm_cli_desktop_names : List String
  wm_cli_desktop_names_exclusive : Bool
  wm_desktop_names : List String
  wm_cli_args : List String
  use_session_slice : Bool

def contentSessionPreTarget (binName : String) : String :=
  "# injected by " ++
    binName ++
    ", do not edit\n[Unit]\nX-UWSM-ID=GENERIC\nDescription=Preparation for session of %I Wayland compositor\nDocumentation=man:systemd.special(7)\nRequires=basic.target\nStopWhenUnneeded=yes\nBindsTo=graphical-session-pre.target\nBefore=graphical-session-pre.target\nPropagatesStopTo=graphical-session-pre.target\n"

def contentSessionTarget (binName : String) : String :=
  "# injected by " ++
    binName ++
    ", do not edit\n[Unit]\nX-UWSM-ID=GENERIC\nDescription=Session of %I Wayland compositor\nDocumentation=man:systemd.special(7)\nRequires=wayland-session-pre@%i.target graphical-session-pre.target\nAfter=wayland-session-pre@%i.target graphical-session-pre.target\nStopWhenUnneeded=yes\nBindsTo=graphical-session.target\nBefore=graphical-session.target\nPropagatesStopTo=graphical-session.target\n"

def contentXdgAutostartTarget (binName : String) : String :=
  "# injected by " ++
    binName ++
    ", do not edit\n[Unit]\nX-UWSM-ID=GENERIC\nDescription=XDG Autostart for session of %I Wayland compositor\nDocumentation=man:systemd.special(7)\nRequires=wayland-session@%i.target graphical-session.target\nAfter=wayland-session@%i.target graphical-session.target\nStopWhenUnneeded=yes\nBindsTo=xdg-desktop-autostart.target\nBefore=xdg-desktop-autostart.target\nPropagatesStopTo=xdg-desktop-autostart.target\n"

def contentShutdownTarget (binName : String) : String :=
  "# injected by " ++
    binName ++
    ", do not edit\n[Unit]\nX-UWSM-ID=GENERIC\nDescription=Shutdown graphical session units\nDocumentation=man:systemd.special(7)\nDefaultDependencies=no\nConflicts=app-graphical.slice\nAfter=app-graphical.slice\nConflicts=background-graphical.slice\nAfter=background-graphical.slice\nConflicts=session-graphical.slice\nAfter=session-graphical.slice\nConflicts=xdg-desktop-autostart.target\nAfter=xdg-desktop-autostart.target\n# dirty fix of xdg-desktop-portal-gtk.service shudown\nConflicts=xdg-desktop-portal-gtk.service\nAfter=xdg-desktop-portal-gtk.service\nConflicts=graphical-session.target\nAfter=graphical-session.target\nConflicts=graphical-session-pre.target\nAfter=graphical-session-pre.target\nStopWhenUnneeded=yes\n"

def contentWmEnvService (binName : String) (binPath : String) (slice : String) : String :=
  "# injected by " ++
    binName ++
    ", do not edit\n[Unit]\nX-UWSM-ID=GENERIC\nDescription=Environment preloader for %I\nDocumentation=man:systemd.service(7)\nBindsTo=wayland-session-pre@%i.target\nBefore=wayland-session-pre@%i.target\nStopWhenUnneeded=yes\nCollectMode=inactive-or-failed\nOnFailure=wayland-session-shutdown.target\nOnSuccess=wayland-session-shutdown.target\n[Service]\nType=oneshot\nRemainAfterExit=yes\nExecStart=" ++
    binPath ++
    " aux prepare-env \"%I\"\nExecStop=" ++
    binPath ++
    " aux cleanup-env\nRestart=no\nSyslogIdentifier=" ++
    binName ++
    "_env-preloader\nSlice=" ++
    slice ++
    "\n"

def contentWmService (binName : String) (binPath : String) (slice : String) : String :=
  "# injected by " ++
    binName ++
    ", do not edit\n[Unit]\nX-UWSM-ID=GENERIC\nDescription=Main service for %I\nDocumentation=man:systemd.service(7)\nBindsTo=wayland-session@%i.target\nBefore=wayland-session@%i.target\nRequires=wayland-wm-env@%i.service graphical-session-pre.target\nAfter=wayland-wm-env@%i.service graphical-session-pre.target\nWants=wayland-session-xdg-autostart@%i.target xdg-desktop-autostart.target\nBefore=wayland-session-xdg-autostart@%i.target xdg-desktop-autostart.target app-graphical.slice background-graphical.slice session-graphical.slice\nPropagatesStopTo=app-graphical.slice background-graphical.slice session-graphical.slice\n# dirty fix of xdg-desktop-portal-gtk.service shudown\nPropagatesStopTo=xdg-desktop-portal-gtk.service\nCollectMode=inactive-or-failed\nOnFailure=wayland-session-shutdown.target\nOnSuccess=wayland-session-shutdown.target\n[Service]\n# awaits for \x27systemd-notify --ready\x27 from compositor child\n# should be issued by \x27" ++
    binName ++
    " finalize\x27\nType=notify\nNotifyAccess=all\nExecStart=" ++
    binPath ++
    " aux exec %I\nRestart=no\nTimeoutStartSec=10\nTimeoutStopSec=10\nSyslogIdentifier=" ++
    binName ++
    "_%I\nSlice=" ++
    slice ++
    "\n"

def contentAppDaemonService (binName : String) (binPath : String) (slice : String) : String :=
  "# injected by " ++
    binName ++
    ", do not edit\n[Unit]\nX-UWSM-ID=GENERIC\nDescription=Fast application argument generator\nDocumentation=man:systemd.service(7)\nBindsTo=graphical-session.target\nCollectMode=inactive-or-failed\n[Service]\nType=exec\nExecStart=" ++
    binPath ++
    " aux app-daemon\nRestart=on-failure\nRestartMode=direct\nSyslogIdentifier=" ++
    binName ++
    "_app-daemon\nSlice=" ++
    slice ++
    "\n"

def contentAppSlice (binName : String) : String :=
  "# injected by " ++
    binName ++
    ", do not edit\n[Unit]\nX-UWSM-ID=GENERIC\nDescription=User Graphical Application Slice\nDocumentation=man:systemd.special(7)\nPartOf=graphical-session.target\nAfter=graphical-session.target\n"

def contentBackgroundSlice (binName : String) : String :=
  "# injected by " ++
    binName ++
    ", do not edit\n[Unit]\nX-UWSM-ID=GENERIC\nDescription=User Graphical Background Application Slice\nDocumentation=man:systemd.special(7)\nPartOf=graphical-session.target\nAfter=graphical-session.target\n"

def contentSessionSlice (binName : String) : String :=
  "# injected by " ++
    binName ++
    ", do not edit\n[Unit]\nX-UWSM-ID=GENERIC\nDescription=User Graphical Session Application Slice\nDocumentation=man:systemd.special(7)\nPartOf=graphical-session.target\nAfter=graphical-session.target\n"

def contentSliceTweak (binName : String) : String :=
  "# injected by " ++
    binName ++
    ", do not edit\n[Unit]\n# make autostart apps stoppable by target\n#StopPropagatedFrom=xdg-desktop-autostart.target\nPartOf=xdg-desktop-autostart.target\nX-UWSM-ID=GENERIC\n[Service]\n# also put them in special graphical app slice\nSlice=app-graphical.slice\n"

/-- shlex.quote: a safe string passes through, the empty string and
unsafe strings are wrapped in single quotes, embedded single quotes
escaped by closing, quoting, reopening. -/
def shlexQuote (s : String) : String :=
  if s = "" then "\x27\x27"
  else if s.data.all (fun c =>
      isAsciiLetter c || isAsciiDigit c || c = '_' || c = '@' || c = '%' ||
        c = '+' || c = '=' || c = ':' || c = ',' || c = '.' || c = '/' ||
        c = '-') then s
  else
    "\x27" ++
      (s.data.flatMap (fun c =>
        if c = '\x27' then "\x27\x22\x27\x22\x27".data else [c])).asString ++
      "\x27"

/-- shlex.join (line 1497). -/
def shlexJoin (args : List String) : String :=
  String.intercalate " " (args.map shlexQuote)

/-- generate_units as the list of unit store actions it performs, in
source order.  wm_id_unit_string is simple_systemd_escape(wm_id,
start=False) as at line 3520.  (wm_cmdline is non-empty whenever
generate_units runs; headD covers the impossible empty case.) -/
def generateUnits (d : WmDescriptor) (binName binPath : String) :
    List UnitAction :=
  let wayland_wm_slice :=
    if d.use_session_slice then "session.slice" else "app.slice"
  let wm_id_unit_string := (simpleSystemdEscape false d.wm_id.data).asString
  let wm_specific_preloader :=
    "wayland-wm-env@" ++ wm_id_unit_string ++ ".service.d/50_custom.conf"
  let wm_specific_service :=
    "wayland-wm@" ++ wm_id_unit_string ++ ".service.d/50_custom.conf"
  let tagLine :=
    "# injected by " ++ binName ++ ", do not edit\n[Unit]\nX-UWSM-ID=" ++
      d.wm_id ++ "\n"
  let preloaderData := [tagLine] ++
    (if d.wm_name != "" then
      ["Description=Environment preloader for " ++ d.wm_name ++ "\n"]
     else [])
  let serviceData := [tagLine] ++
    (if d.wm_name != "" || d.wm_description != "" then
      ["Description=Main service for " ++
        String.intercalate ", "
          ([if d.wm_name != "" then d.wm_name else d.wm_cmdline.headD "",
            d.wm_description].filter (fun s => s != "")) ++ "\n"]
     else [])
  let prepend :=
    if d.wm_cli_desktop_names_exclusive then
      " -eD \"" ++ String.intercalate ":" d.wm_cli_desktop_names ++ "\""
    else if d.wm_desktop_names != [d.wm_cmdline.headD ""] then
      " -D \"" ++ String.intercalate ":" d.wm_desktop_names ++ "\""
    else ""
  let append :=
    if d.wm_cli_args != [] then " " ++ shlexJoin d.wm_cli_args else ""
  let preloaderData := preloaderData ++
    (if prepend != "" || append != "" then
      ["[Service]\nExecStart=\nExecStart=" ++ binPath ++ " aux prepare-env" ++
        prepend ++ " \"%I\"" ++ append ++ "\n"]
     else [])
  let serviceData := serviceData ++
    (if append != "" then
      ["[Service]\nExecStart=\nExecStart=" ++ binPath ++ " aux exec \"%I\"" ++
        append ++ "\n"]
     else [])
  [UnitAction.update "wayland-session-pre@.target"
     (contentSessionPreTarget binName),
   UnitAction.update "wayland-session@.target" (contentSessionTarget binName),
   UnitAction.update "wayland-session-xdg-autostart@.target"
     (contentXdgAutostartTarget binName),
   UnitAction.update "wayland-session-shutdown.target"
     (contentShutdownTarget binName),
   UnitAction.update "wayland-wm-env@.service"
     (contentWmEnvService binName binPath wayland_wm_slice),
   UnitAction.update "wayland-wm@.service"
     (contentWmService binName binPath wayland_wm_slice),
   UnitAction.update "wayland-wm-app-daemon.service"
     (contentAppDaemonService binName binPath wayland_wm_slice),
   UnitAction.update "app-graphical.slice" (contentAppSlice binName),
   UnitAction.update "background-graphical.slice"
     (contentBackgroundSlice binName),
   UnitAction.update "session-graphical.slice" (contentSessionSlice binName),
   (if preloaderData.length > 1 then
      UnitAction.update wm_specific_preloader (String.join preloaderData)
    else UnitAction.remove wm_specific_preloader),
   (if serviceData.length > 1 then
      UnitAction.update wm_specific_service (String.join serviceData)
    else UnitAction.remove wm_specific_service),
   UnitAction.update "app-@autostart.service.d/slice-tweak.conf"
     (contentSliceTweak binName)]

/-- The descriptor of the C5 scenario: id "sway", no desktop entry, no
custom name, description, desktop names or extra arguments (the desktop
name list holds just the executable, as lines 3689-3695 build it). -/
def swayDescriptor : WmDescriptor :=
  { wm_id := "sway", wm_name := "", wm_description := "",
    wm_cmdline := ["sway"], wm_cli_desktop_names := [],
    wm_cli_desktop_names_exclusive := false, wm_desktop_names := ["sway"],
    wm_cli_args := [], use_session_slice := false }

/-- The two session-specific drop-in paths of a descriptor. -/
def sessionSpecificUnitNames (d : WmDescriptor) : List String :=
  let e := (simpleSystemdEscape false d.wm_id.data).asString
  ["wayland-wm-env@" ++ e ++ ".service.d/50_custom.conf",
   "wayland-wm@" ++ e ++ ".service.d/50_custom.conf"]

def isUpdate : UnitAction -> Bool
  | .update _ _ => true
  | .remove _ => false

def countGenericUpdates (d : WmDescriptor) (acts : List UnitAction) : Nat :=
  (acts.filter (fun a =>
    isUpdate a && !(sessionSpecificUnitNames d).contains (unitActionName a))).length

def countSpecificUpdates (d : WmDescriptor) (acts : List UnitAction) : Nat :=
  (acts.filter (fun a =>
    isUpdate a && (sessionSpecificUnitNames d).contains (unitActionName a))).length

/-! ## Reconciliation facts: a successful action leaves the store settled
for that unit, and replaying a settled action changes nothing -/

/-- The store state an action leaves behind at its own unit path: an
update leaves the file holding exactly the written data (a missing file
reads as ""), a removal leaves no file. -/
def actionSettled (st : UnitStore) : UnitAction → Prop
  | .update u d => (st.lookup u).getD "" = d
  | .remove u => st.lookup u = none

/-! ## App unit-name synthesis (app, lines 3219-3276)

The scope/service unit name is assembled from escaped desktop and command
substrings, each trimmed against the 255-character unit-name budget by
walking the re.split(r"(\\x..)", ...) fragments: whole fragments are kept
while the running length stays under the limit, a \xHH fragment at the
boundary is dropped whole, a plain fragment is cut to fill the limit
exactly.  l_static is len("app---DEADBEEF.") + len(app_unit_type); the
loop guard keeps l_check below the limit, so the Python slice bound
127-l_check (resp. 255-l_check) is the plain Nat difference. -/

def isHexDigitB (c : Char) : Bool :=
  isAsciiDigit c || (97 ≤ c.toNat && c.toNat ≤ 102)

/-- State machine recognizing strings made of plain non-backslash
characters and complete \xHH escapes (lowercase hex): the state counts the
characters of a pending escape still due (x, then two hex digits).  A
string l never ends in the middle of an escape sequence iff
escTokensAux 0 l = true. -/
def escTokensAux : Nat → List Char → Bool
  | 0, [] => true
  | _ + 1, [] => false
  | 0, c :: t => if c = '\\' then escTokensAux 3 t else escTokensAux 0 t
  | 3, c :: t => if c = 'x' then escTokensAux 2 t else false
  | 2, c :: t => if isHexDigitB c then escTokensAux 1 t else false
  | 1, c :: t => if isHexDigitB c then escTokensAux 0 t else false
  | _ + 4, _ :: _ => false

def escTokensB (l : List Char) : Bool := escTokensAux 0 l

def consFrag (c : Char) : List (List Char) → List (List Char)
  | f :: fs => (c :: f) :: fs
  | [] => [[c]]

def splitEsc (l : List Char) : List (List Char) :=
  match l with
  | '\\' :: 'x' :: a :: b :: rest =>
    if a ≠ '\n' ∧ b ≠ '\n' then [] :: ['\\', 'x', a, b] :: splitEsc rest
    else consFrag '\\' (splitEsc ('x' :: a :: b :: rest))
  | c :: rest => consFrag c (splitEsc rest)
  | [] => [[]]
termination_by l.length
decreasing_by
  all_goals simp
  omega

def trimFrags (limit : Nat) : Nat → List (List Char) → List Char
  | _, [] => []
  | lcheck, f :: rest =>
    if f.length + lcheck < limit then
      f ++ trimFrags limit (lcheck + f.length) rest
    else if f.take 2 = ['\\', 'x'] then []
    else f.take (limit - lcheck)

def goodFrag (g : List Char) : Prop :=
  (∀ c ∈ g, c ≠ '\\') ∨
    ∃ a b, g = ['\\', 'x', a, b] ∧ isHexDigitB a = true ∧ isHexDigitB b = true

def trimmedDesktop (desktop appUnitType : String) : List Char :=
  let du0 := simpleSystemdEscape false desktop.data
  let lStatic := "app---DEADBEEF.".length + appUnitType.length
  if lStatic + du0.length > 127 then trimFrags 127 lStatic (splitEsc du0)
  else du0

def trimmedCmd (desktop cmd appUnitType : String) : List Char :=
  let cu0 := simpleSystemdEscape false cmd.data
  let lStatic := "app---DEADBEEF.".length + appUnitType.length
  let du := trimmedDesktop desktop appUnitType
  if lStatic + du.length + cu0.length > 255 then
    trimFrags 255 (lStatic + du.length) (splitEsc cu0)
  else cu0

def appUnitName (desktop cmd appUnitType hex8 : String) : List Char :=
  "app-".data ++ trimmedDesktop desktop appUnitType ++ ['-'] ++
    trimmedCmd desktop cmd appUnitType ++
    (if appUnitType = "scope" then ['-'] else ['@']) ++ hex8.data ++ ['.'] ++
    appUnitType.data

/-! ## Desktop-entry argument composition (gen_entry_args, lines 2744-2904)

The desktop-entry collaborator is represented by what gen_entry_args reads
from it: the Exec value already shlex-split into command and argument
template (lines 2760-2763), the localized name (entry.getName()), the
entry file path (entry.getFileName()) and the Icon value ("" when the
entry declares none). -/

structure EntryInfo where
  execCmd : String
  execArgs : List String
  name : String
  fileName : String
  icon : String

/-- urlparse(arg).scheme is non-empty: a leading ASCII letter followed by
letters, digits, +, - or . up to a colon (path2url, lines 2737-2741). -/
def hasUrlSchemeTail : List Char → Bool
  | [] => false
  | c :: t =>
    if c = ':' then true
    else (isAsciiLetter c || isAsciiDigit c || c = '+' || c = '-' ||
      c = '.') && hasUrlSchemeTail t

def hasUrlScheme (s : String) : Bool :=
  match s.data with
  | [] => false
  | c :: t => isAsciiLetter c && hasUrlSchemeTail t

/-- urllib.parse.quote with the default safe set (letters, digits, _.-~
and /): other characters become %XX per UTF-8 byte, uppercase hex. -/
def hexDigitUpper (n : Nat) : Char := "0123456789ABCDEF".data.getD n '0'

def urlQuote (s : String) : String :=
  (s.data.flatMap (fun c =>
    if isAsciiLetter c || isAsciiDigit c || c = '_' || c = '.' || c = '-' ||
        c = '~' || c = '/' then [c]
    else (utf8Bytes c).flatMap
      (fun b => ['%', hexDigitUpper (b / 16), hexDigitUpper (b % 16)]))).asString

def path2url (arg : String) : String :=
  if hasUrlScheme arg then arg else "file:" ++ urlQuote arg

/-- The mutable loop state of gen_entry_args: the working copy of the
argument list, the running index offset (expand), and the %[fFuU] field
already encountered ("" for none). -/
structure GenSt where
  cur : List String
  expand : Int
  encountered : String

/-- list.pop(i) / list.insert(i, x) / list[i] = x at the non-negative
indices the loop reaches. -/
def popAt (l : List String) (i : Int) : List String := l.eraseIdx i.toNat

def insertAt (l : List String) (i : Int) (x : String) : List String :=
  l.insertIdx i.toNat x

def setAt (l : List String) (i : Int) (x : String) : List String :=
  l.set i.toNat x

/-- One iteration of the field-expansion loop (lines 2772-2875), for the
template argument arg found at position idx of the original list. -/
def fieldStep (e : EntryInfo) (args : List String) (st : GenSt) (idx : Nat)
    (arg : String) : Except String GenSt :=
  if arg = "%f" then
    if st.encountered ≠ "" then
      .error ("Desktop entry has conflicting args: \"" ++ st.encountered ++
        "\", \"" ++ arg ++ "\"")
    else if args.length ≤ 1 then
      match args with
      | a :: _ =>
        .ok { cur := insertAt (popAt st.cur (idx + st.expand))
                (idx + (st.expand - 1)) a,
              expand := st.expand - 1 + 1, encountered := arg }
      | [] =>
        .ok { cur := popAt st.cur (idx + st.expand),
              expand := st.expand - 1, encountered := arg }
    else .ok { st with encountered := arg }
  else if arg = "%F" then
    if st.encountered ≠ "" then
      .error ("Desktop entry has conflicting args: \"" ++ st.encountered ++
        "\", \"" ++ arg ++ "\"")
    else
      let r := args.foldl
        (fun (p : List String × Int) a => (insertAt p.1 (idx + p.2) a, p.2 + 1))
        (popAt st.cur (idx + st.expand), st.expand - 1)
      .ok { cur := r.1, expand := r.2, encountered := arg }
  else if arg = "%u" then
    if st.encountered ≠ "" then
      .error ("Desktop entry has conflicting args: \"" ++ st.encountered ++
        "\", \"" ++ arg ++ "\"")
    else if args.length ≤ 1 then
      match args with
      | a :: _ =>
        .ok { cur := insertAt (popAt st.cur (idx + st.expand))
                (idx + (st.expand - 1)) (path2url a),
              expand := st.expand - 1 + 1, encountered := arg }
      | [] =>
        .ok { cur := popAt st.cur (idx + st.expand),
              expand := st.expand - 1, encountered := arg }
    else .ok { st with encountered := arg }
  else if arg = "%U" then
    if st.encountered ≠ "" then
      .error ("Desktop entry has conflicting args: \"" ++ st.encountered ++
        "\", \"" ++ arg ++ "\"")
    else
      let r := args.foldl
        (fun (p : List String × Int) a =>
          (insertAt p.1 (idx + p.2) (path2url a), p.2 + 1))
        (popAt st.cur (idx + st.expand), st.expand - 1)
      .ok { cur := r.1, expand := r.2, encountered := arg }
  else if arg = "%c" then
    .ok { st with cur := setAt st.cur (idx + st.expand) e.name }
  else if arg = "%k" then
    .ok { st with cur := setAt st.cur (idx + st.expand) e.fileName }
  else if arg = "%i" then
    if e.icon ≠ "" then
      .ok { st with
              cur := insertAt (setAt st.cur (idx + st.expand) "--icon")
                (idx + st.expand + 1) e.icon
              expand := st.expand + 1 }
    else
      .ok { st with
              cur := popAt st.cur (idx + st.expand)
              expand := st.expand - 1 }
  else .ok st

/-- The loop over enumerate(entry_args.copy()): the index/argument pairs
are fixed up front while the working list mutates. -/
def processFields (e : EntryInfo) (args : List String) :
    GenSt → List (Nat × String) → Except String GenSt
  | st, [] => .ok st
  | st, (idx, arg) :: rest =>
    match fieldStep e args st idx arg with
    | .ok st2 => processFields e args st2 rest
    | .error m => .error m

inductive GenResult where
  | single (cmd : String) (args : List String)
  | multi (cmd : String) (argLists : List (List String))

/-- gen_entry_args: run the field loop, fail if arguments were supplied
but no field consumed them, and in the iterative case (%f/%u with several
arguments) synthesize one argument list per argument by substituting at
the field position (list.index of the field, present in this branch). -/
def genEntryArgs (e : EntryInfo) (args : List String)
    (entryAction : Option String) : Except String GenResult :=
  match processFields e args
      { cur := e.execArgs, expand := 0, encountered := "" } e.execArgs.enum with
  | .error m => .error m
  | .ok st =>
    if args ≠ [] ∧ st.encountered = "" ∧ entryAction.isSome then
      .error ("Entry \"" ++ e.fileName ++ "\" action \"" ++
        entryAction.getD "" ++ "\" does not support arguments")
    else if args ≠ [] ∧ st.encountered = "" ∧ entryAction.isNone then
      .error ("Entry \"" ++ e.fileName ++ "\" does not support arguments")
    else if 1 < args.length ∧ (st.encountered = "%f" ∨ st.encountered = "%u") then
      .ok (.multi e.execCmd (args.map (fun a =>
        st.cur.set (st.cur.indexOf st.encountered)
          (if st.encountered = "%u" then path2url a else a))))
    else .ok (.single e.execCmd st.cur)

def isFuField (s : String) : Bool :=
  s = "%f" || s = "%F" || s = "%u" || s = "%U"

/-- An xterm-style desktop entry whose Exec template carries both %f and
%F. -/
def xtermEntry : EntryInfo where
  execCmd := "xterm"
  execArgs := ["-e", "%f", "%F"]
  name := "XTerm"
  fileName := "xterm.desktop"
  icon := "xterm"

/-- The spec scenario snapshots: baseline PATH=/usr/bin, post-prepare
snapshot with WAYLAND_DISPLAY=wayland-1 added. -/
def scenarioPre : EnvMap := [("PATH", "/usr/bin")]

def scenarioPost : EnvMap := [("PATH", "/usr/bin"), ("WAYLAND_DISPLAY", "wayland-1")]

/-! ## Lemmas, validation examples and claim theorems -/

/-! ## Dict lemmas -/

theorem envKeys_cons (p : String × String) (m : EnvMap) :
    envKeys (p :: m) = p.1 :: envKeys m := rfl

theorem mem_of_lookup {m : EnvMap} {k v : String} (h : m.lookup k = some v) :
    (k, v) ∈ m := by
  induction m with
  | nil => simp [List.lookup] at h
  | cons q rest ih =>
    obtain ⟨k0, v0⟩ := q
    by_cases hk : k = k0
    · subst hk
      simp only [List.lookup, beq_self_eq_true] at h
      cases h
      exact List.mem_cons_self _ _
    · have hb : (k == k0) = false := by simp [hk]
      simp only [List.lookup, hb] at h
      exact List.mem_cons_of_mem _ (ih h)

theorem dictUpdate_cons (k0 v0 k v : String) (rest : EnvMap) :
    dictUpdate ((k0, v0) :: rest) k v =
      if k0 = k then (k, v) :: rest else (k0, v0) :: dictUpdate rest k v := rfl

theorem dictPop_cons (k0 v0 k : String) (rest : EnvMap) :
    dictPop ((k0, v0) :: rest) k =
      if k0 = k then rest else (k0, v0) :: dictPop rest k := rfl

theorem fst_mem_envKeys {m : EnvMap} {p : String × String} (h : p ∈ m) :
    p.1 ∈ envKeys m := List.mem_map_of_mem Prod.fst h

theorem lookup_of_mem {m : EnvMap} (hm : (envKeys m).Nodup) {k v : String}
    (h : (k, v) ∈ m) : m.lookup k = some v := by
  induction m with
  | nil => cases h
  | cons q rest ih =>
    obtain ⟨k0, v0⟩ := q
    rw [envKeys_cons, List.nodup_cons] at hm
    rcases List.mem_cons.mp h with heq | hmem
    · cases heq
      simp [List.lookup]
    · have hk1 : k0 ∉ envKeys rest := hm.1
      have hk : k ≠ k0 := by
        rintro rfl
        exact hk1 (fst_mem_envKeys hmem)
      have hb : (k == k0) = false := by simp [hk]
      simp only [List.lookup, hb]
      exact ih hm.2 hmem

theorem mem_envKeys_dictUpdate (m : EnvMap) (k v x : String) :
    x ∈ envKeys (dictUpdate m k v) ↔ x ∈ envKeys m ∨ x = k := by
  induction m with
  | nil => simp [dictUpdate, envKeys]
  | cons p rest ih =>
    obtain ⟨k0, v0⟩ := p
    rw [dictUpdate_cons]
    by_cases hk : k0 = k
    · rw [if_pos hk, envKeys_cons, envKeys_cons]
      subst hk
      simp only [List.mem_cons]
      tauto
    · rw [if_neg hk, envKeys_cons, envKeys_cons]
      simp only [List.mem_cons, ih]
      tauto

theorem nodup_envKeys_dictUpdate {m : EnvMap} (k v : String)
    (h : (envKeys m).Nodup) : (envKeys (dictUpdate m k v)).Nodup := by
  induction m with
  | nil => simp [dictUpdate, envKeys]
  | cons p rest ih =>
    obtain ⟨k0, v0⟩ := p
    rw [envKeys_cons, List.nodup_cons] at h
    have hk1 : k0 ∉ envKeys rest := h.1
    rw [dictUpdate_cons]
    by_cases hk : k0 = k
    · rw [if_pos hk, envKeys_cons, List.nodup_cons]
      subst hk
      exact ⟨hk1, h.2⟩
    · rw [if_neg hk, envKeys_cons, List.nodup_cons]
      refine ⟨?_, ih h.2⟩
      rw [mem_envKeys_dictUpdate]
      rintro (hmem | rfl)
      · exact hk1 hmem
      · exact hk rfl

theorem mem_dictUpdate {m : EnvMap} (h : (envKeys m).Nodup) {k v : String}
    {p : String × String} :
    p ∈ dictUpdate m k v ↔ (p ∈ m ∧ p.1 ≠ k) ∨ p = (k, v) := by
  induction m with
  | nil => simp [dictUpdate]
  | cons q rest ih =>
    obtain ⟨k0, v0⟩ := q
    rw [envKeys_cons, List.nodup_cons] at h
    have hk1 : k0 ∉ envKeys rest := h.1
    rw [dictUpdate_cons]
    by_cases hk : k0 = k
    · subst hk
      rw [if_pos rfl]
      simp only [List.mem_cons]
      constructor
      · rintro (rfl | hp)
        · exact Or.inr rfl
        · have hne : p.1 ≠ k0 := fun heq => hk1 (heq ▸ fst_mem_envKeys hp)
          exact Or.inl ⟨Or.inr hp, hne⟩
      · rintro (⟨rfl | hp, hne⟩ | rfl)
        · exact absurd rfl hne
        · exact Or.inr hp
        · exact Or.inl rfl
    · rw [if_neg hk]
      simp only [List.mem_cons, ih h.2]
      constructor
      · rintro (rfl | ⟨hp, hne⟩ | rfl)
        · exact Or.inl ⟨Or.inl rfl, fun he => hk he⟩
        · exact Or.inl ⟨Or.inr hp, hne⟩
        · exact Or.inr rfl
      · rintro (⟨rfl | hp, hne⟩ | rfl)
        · exact Or.inl rfl
        · exact Or.inr (Or.inl ⟨hp, hne⟩)
        · exact Or.inr (Or.inr rfl)

theorem envKeys_dictPop_sublist (m : EnvMap) (k : String) :
    (envKeys (dictPop m k)).Sublist (envKeys m) := by
  induction m with
  | nil => simp [dictPop]
  | cons q rest ih =>
    obtain ⟨k0, v0⟩ := q
    rw [dictPop_cons]
    by_cases hk : k0 = k
    · rw [if_pos hk, envKeys_cons]
      exact (List.Sublist.refl _).cons _
    · rw [if_neg hk, envKeys_cons, envKeys_cons]
      exact ih.cons₂ _

theorem mem_dictPop {m : EnvMap} (h : (envKeys m).Nodup) {k : String}
    {p : String × String} :
    p ∈ dictPop m k ↔ p ∈ m ∧ p.1 ≠ k := by
  induction m with
  | nil => simp [dictPop]
  | cons q rest ih =>
    obtain ⟨k0, v0⟩ := q
    rw [envKeys_cons, List.nodup_cons] at h
    have hk1 : k0 ∉ envKeys rest := h.1
    rw [dictPop_cons]
    by_cases hk : k0 = k
    · subst hk
      rw [if_pos rfl]
      simp only [List.mem_cons]
      constructor
      · intro hp
        have hne : p.1 ≠ k0 := fun heq => hk1 (heq ▸ fst_mem_envKeys hp)
        exact ⟨Or.inr hp, hne⟩
      · rintro ⟨rfl | hp, hne⟩
        · exact absurd rfl hne
        · exact hp
    · rw [if_neg hk]
      simp only [List.mem_cons, ih h.2]
      constructor
      · rintro (rfl | ⟨hp, hne⟩)
        · exact ⟨Or.inl rfl, fun he => hk he⟩
        · exact ⟨Or.inr hp, hne⟩
      · rintro ⟨rfl | hp, hne⟩
        · exact Or.inl rfl
        · exact Or.inr ⟨hp, hne⟩

/-! ## Characterizing the prepare_env export fold -/

theorem exportFold_spec (envPost : EnvMap) (L : List String) :
    ∀ m : EnvMap, (envKeys m).Nodup →
      (∀ q ∈ m, envPost.lookup q.1 = some q.2) →
      (envKeys (L.foldl (exportStep envPost) m)).Nodup ∧
      (∀ q ∈ L.foldl (exportStep envPost) m, envPost.lookup q.1 = some q.2) ∧
      (∀ p : String × String,
        p ∈ L.foldl (exportStep envPost) m ↔
          p ∈ m ∨ (p.1 ∈ L ∧ envPost.lookup p.1 = some p.2)) := by
  induction L with
  | nil =>
    intro m hm hinv
    exact ⟨hm, hinv, by simp⟩
  | cons var L ih =>
    intro m hm hinv
    simp only [List.foldl_cons]
    rcases hlk : envPost.lookup var with _ | v
    · have hstep : exportStep envPost m var = m := by simp [exportStep, hlk]
      rw [hstep]
      obtain ⟨h1, h2, h3⟩ := ih m hm hinv
      refine ⟨h1, h2, fun p => ?_⟩
      rw [h3]
      constructor
      · rintro (hp | ⟨hL, hlkp⟩)
        · exact Or.inl hp
        · exact Or.inr ⟨List.mem_cons_of_mem _ hL, hlkp⟩
      · rintro (hp | ⟨hL, hlkp⟩)
        · exact Or.inl hp
        · rcases List.mem_cons.mp hL with heq | hL2
          · rw [heq, hlk] at hlkp
            cases hlkp
          · exact Or.inr ⟨hL2, hlkp⟩
    · have hstep : exportStep envPost m var = dictUpdate m var v := by
        simp [exportStep, hlk]
      rw [hstep]
      have hm2 := nodup_envKeys_dictUpdate var v hm
      have hinv2 : ∀ q ∈ dictUpdate m var v, envPost.lookup q.1 = some q.2 := by
        intro q hq
        rcases (mem_dictUpdate hm).mp hq with ⟨hqm, -⟩ | rfl
        · exact hinv q hqm
        · exact hlk
      obtain ⟨h1, h2, h3⟩ := ih _ hm2 hinv2
      refine ⟨h1, h2, fun p => ?_⟩
      rw [h3, mem_dictUpdate hm]
      constructor
      · rintro ((⟨hpm, -⟩ | rfl) | ⟨hL, hlkp⟩)
        · exact Or.inl hpm
        · exact Or.inr ⟨List.mem_cons_self _ _, hlk⟩
        · exact Or.inr ⟨List.mem_cons_of_mem _ hL, hlkp⟩
      · rintro (hpm | ⟨hL, hlkp⟩)
        · by_cases hpv : p.1 = var
          · have hv := hinv p hpm
            rw [hpv, hlk] at hv
            refine Or.inl (Or.inr (Prod.ext hpv ?_))
            cases hv
            rfl
          · exact Or.inl (Or.inl ⟨hpm, hpv⟩)
        · rcases List.mem_cons.mp hL with hveq | hL2
          · rw [hveq, hlk] at hlkp
            refine Or.inl (Or.inr (Prod.ext hveq ?_))
            cases hlkp
            rfl
          · exact Or.inr ⟨hL2, hlkp⟩

theorem popFold_mem (L : List String) :
    ∀ m : EnvMap, (envKeys m).Nodup →
      (envKeys (L.foldl (fun acc var => dictPop acc var) m)).Nodup ∧
      (∀ p : String × String,
        p ∈ L.foldl (fun acc var => dictPop acc var) m ↔ p ∈ m ∧ p.1 ∉ L) := by
  induction L with
  | nil =>
    intro m hm
    exact ⟨hm, by simp⟩
  | cons var L ih =>
    intro m hm
    simp only [List.foldl_cons]
    have hm2 : (envKeys (dictPop m var)).Nodup :=
      (envKeys_dictPop_sublist m var).nodup hm
    obtain ⟨h1, h2⟩ := ih _ hm2
    refine ⟨h1, fun p => ?_⟩
    rw [h2, mem_dictPop hm]
    simp only [List.mem_cons]
    tauto

theorem mem_computeSetEnv {envPre envPost : EnvMap}
    (hpost : (envKeys envPost).Nodup) (p : String × String) :
    p ∈ computeSetEnv envPre envPost ↔
      ((p ∈ envPost ∧ p ∉ envPre) ∨
        (p.1 ∈ exportIter ∧ envPost.lookup p.1 = some p.2)) ∧
      p.1 ∉ popIter := by
  unfold computeSetEnv
  have hraw_sub : (envKeys (rawSetEnv envPre envPost)).Sublist (envKeys envPost) :=
    (List.filter_sublist _).map Prod.fst
  have hraw_nodup : (envKeys (rawSetEnv envPre envPost)).Nodup := hraw_sub.nodup hpost
  have hraw_inv : ∀ q ∈ rawSetEnv envPre envPost, envPost.lookup q.1 = some q.2 := by
    intro q hq
    obtain ⟨q1, q2⟩ := q
    exact lookup_of_mem hpost (List.mem_of_mem_filter hq)
  obtain ⟨hn1, -, h3⟩ := exportFold_spec envPost exportIter _ hraw_nodup hraw_inv
  obtain ⟨-, h4⟩ := popFold_mem popIter _ hn1
  rw [h4, h3]
  have hraw : p ∈ rawSetEnv envPre envPost ↔ p ∈ envPost ∧ p ∉ envPre := by
    simp [rawSetEnv, List.mem_filter]
  rw [hraw]

theorem computeSetEnv_eq_specToSet (envPre envPost : EnvMap)
    (hpost : (envKeys envPost).Nodup) :
    (computeSetEnv envPre envPost).toFinset = specToSet envPre envPost := by
  ext p
  rw [List.mem_toFinset, mem_computeSetEnv hpost]
  simp only [specToSet, Finset.mem_filter, Finset.mem_union, Finset.mem_sdiff,
    List.mem_toFinset]
  have hexp : p.1 ∈ exportIter ↔
      p.1 ∈ Varnames.always_export ∧ p.1 ∉ Varnames.never_export ∧
        p.1 ∉ Varnames.always_unset := by
    simp only [exportIter, Finset.mem_sort, Finset.mem_sdiff]
    tauto
  have hpop : p.1 ∈ popIter ↔
      p.1 ∈ Varnames.never_export ∨ p.1 ∈ Varnames.always_unset := by
    simp only [popIter, Finset.mem_sort, Finset.mem_union]
  have hlkm : envPost.lookup p.1 = some p.2 ↔ p ∈ envPost := by
    constructor
    · intro hl
      have h2 := mem_of_lookup hl
      simpa using h2
    · intro hm
      obtain ⟨p1, p2⟩ := p
      exact lookup_of_mem hpost hm
  rw [hexp, hpop, hlkm]
  tauto

theorem readCleanupFile_writeCleanupFile (a b : Finset String)
    (h : ∀ n ∈ a ∪ b, pyStrip n = n ∧ n ≠ "") :
    readCleanupFile (writeCleanupFile a b) = a ∪ b := by
  unfold readCleanupFile writeCleanupFile
  ext x
  simp only [List.mem_toFinset, List.mem_filter, List.mem_map, bne_iff_ne, ne_eq]
  constructor
  · rintro ⟨⟨y, hy, rfl⟩, hne⟩
    rw [Finset.mem_sort] at hy
    rw [(h y hy).1]
    exact hy
  · intro hx
    refine ⟨⟨x, (Finset.mem_sort _).mpr hx, (h x hx).1⟩, ?_⟩
    exact (h x hx).2

example : unitExtSearch "foo.service" = true := by decide

example : unitExtSearch "a.d/bXconf" = true := by decide

example : unitExtSearch "x.d/y.conf" = true := by decide

example : unitExtSearch "wayland-wm-env@sway.service.d/50_custom.conf" = true := by
  decide

example : unitExtSearch "foo.conf" = false := by decide

example : unitExtSearch "a.d/conf" = false := by decide

example : unitExtSearch "a.d/.conf" = false := by decide

example : unitExtSearch "bad.txt" = false := by decide

example : unitExtSearch "a.d/b\nconf" = false := by decide

example : (simpleSystemdEscape false "sway".data).asString = "sway" := by decide

example : (simpleSystemdEscape false "a/b".data).asString = "a-b" := by decide

example : (simpleSystemdEscape false "a b".data).asString = "a\\x20b" := by decide

example : (simpleSystemdEscape true ".a".data).asString = "\\x2ea" := by decide

/-! ## Store lookup lemmas for reconciliation -/

theorem lookup_dictUpdate_self (m : EnvMap) (k v : String) :
    (dictUpdate m k v).lookup k = some v := by
  induction m with
  | nil => simp [dictUpdate, List.lookup]
  | cons q rest ih =>
    obtain ⟨k0, v0⟩ := q
    rw [dictUpdate_cons]
    by_cases hk : k0 = k
    · rw [if_pos hk]
      simp [List.lookup]
    · rw [if_neg hk]
      have hb : (k == k0) = false := by
        simp only [beq_eq_false_iff_ne, ne_eq]
        exact fun he => hk he.symm
      simp only [List.lookup, hb]
      exact ih

theorem lookup_dictUpdate_ne (m : EnvMap) (k v x : String) (hx : x ≠ k) :
    (dictUpdate m k v).lookup x = m.lookup x := by
  induction m with
  | nil =>
    have hb : (x == k) = false := by simp [hx]
    simp [dictUpdate, List.lookup, hb]
  | cons q rest ih =>
    obtain ⟨k0, v0⟩ := q
    rw [dictUpdate_cons]
    by_cases hk : k0 = k
    · rw [if_pos hk]
      subst hk
      have hb : (x == k0) = false := by simp [hx]
      simp [List.lookup, hb]
    · rw [if_neg hk]
      by_cases hx0 : x = k0
      · subst hx0
        simp [List.lookup]
      · have hb : (x == k0) = false := by simp [hx0]
        simp only [List.lookup, hb]
        exact ih

theorem lookup_dictPop_self {m : EnvMap} (h : (envKeys m).Nodup) (k : String) :
    (dictPop m k).lookup k = none := by
  rcases hl : (dictPop m k).lookup k with _ | v
  · rfl
  · have hmem := mem_of_lookup hl
    have := (mem_dictPop h).mp hmem
    exact absurd rfl this.2

theorem lookup_dictPop_ne (m : EnvMap) (k x : String) (hx : x ≠ k) :
    (dictPop m k).lookup x = m.lookup x := by
  induction m with
  | nil => simp [dictPop]
  | cons q rest ih =>
    obtain ⟨k0, v0⟩ := q
    rw [dictPop_cons]
    by_cases hk : k0 = k
    · rw [if_pos hk]
      subst hk
      have hb : (x == k0) = false := by simp [hx]
      simp [List.lookup, hb]
    · rw [if_neg hk]
      by_cases hx0 : x = k0
      · subst hx0
        simp [List.lookup]
      · have hb : (x == k0) = false := by simp [hx0]
        simp only [List.lookup, hb]
        exact ih

theorem applyAction_update (st : UnitStore) (u d : String) :
    applyAction st (.update u d) = updateUnit st u d := rfl

theorem applyAction_remove (st : UnitStore) (u : String) :
    applyAction st (.remove u) = removeUnit st u := rfl

theorem updateUnit_valid_eq (st : UnitStore) (u d : String)
    (hv : unitExtSearch u = true) :
    updateUnit st u d =
      if d = (st.lookup u).getD "" then .ok (st, false)
      else .ok (dictUpdate st u d, true) := by
  unfold updateUnit
  rw [if_neg (by simp [hv])]

theorem removeUnit_valid_eq (st : UnitStore) (u : String)
    (hv : unitExtSearch u = true) :
    removeUnit st u =
      if (st.lookup u).isSome then .ok (dictPop st u, true)
      else .ok (st, false) := by
  unfold removeUnit
  rw [if_neg (by simp [hv])]

theorem updateUnit_ok_valid {st st1 : UnitStore} {c1 : Bool} {u d : String}
    (h : updateUnit st u d = .ok (st1, c1)) : unitExtSearch u = true := by
  rcases hb : unitExtSearch u with _ | _
  · unfold updateUnit at h
    rw [if_pos hb] at h
    cases h
  · rfl

theorem removeUnit_ok_valid {st st1 : UnitStore} {c1 : Bool} {u : String}
    (h : removeUnit st u = .ok (st1, c1)) : unitExtSearch u = true := by
  rcases hb : unitExtSearch u with _ | _
  · unfold removeUnit at h
    rw [if_pos hb] at h
    cases h
  · rfl

theorem applyAction_ok_valid {st st1 : UnitStore} {c1 : Bool} {a : UnitAction}
    (h : applyAction st a = .ok (st1, c1)) :
    unitExtSearch (unitActionName a) = true := by
  cases a with
  | update u d =>
    rw [applyAction_update] at h
    exact updateUnit_ok_valid h
  | remove u =>
    rw [applyAction_remove] at h
    exact removeUnit_ok_valid h

theorem applyAction_ok (st : UnitStore) (a : UnitAction)
    (hv : unitExtSearch (unitActionName a) = true) :
    ∃ r, applyAction st a = .ok r := by
  cases a with
  | update u d =>
    simp only [unitActionName] at hv
    rw [applyAction_update, updateUnit_valid_eq st u d hv]
    by_cases he : d = (st.lookup u).getD ""
    · exact ⟨(st, false), by rw [if_pos he]⟩
    · exact ⟨(dictUpdate st u d, true), by rw [if_neg he]⟩
  | remove u =>
    simp only [unitActionName] at hv
    rw [applyAction_remove, removeUnit_valid_eq st u hv]
    by_cases he : (st.lookup u).isSome
    · exact ⟨(dictPop st u, true), by rw [if_pos he]⟩
    · exact ⟨(st, false), by rw [if_neg he]⟩

theorem applyAction_frame {st st1 : UnitStore} {c1 : Bool} {a : UnitAction}
    (h : applyAction st a = .ok (st1, c1)) (x : String)
    (hx : x ≠ unitActionName a) : st1.lookup x = st.lookup x := by
  have hv := applyAction_ok_valid h
  cases a with
  | update u d =>
    simp only [unitActionName] at hx hv
    rw [applyAction_update, updateUnit_valid_eq st u d hv] at h
    by_cases he : d = (st.lookup u).getD ""
    · rw [if_pos he] at h
      cases h
      rfl
    · rw [if_neg he] at h
      cases h
      exact lookup_dictUpdate_ne st u d x hx
  | remove u =>
    simp only [unitActionName] at hx hv
    rw [applyAction_remove, removeUnit_valid_eq st u hv] at h
    by_cases he : (st.lookup u).isSome
    · rw [if_pos he] at h
      cases h
      exact lookup_dictPop_ne st u x hx
    · rw [if_neg he] at h
      cases h
      rfl

theorem applyAction_nodup {st st1 : UnitStore} {c1 : Bool} {a : UnitAction}
    (h : applyAction st a = .ok (st1, c1)) (hst : (envKeys st).Nodup) :
    (envKeys st1).Nodup := by
  have hv := applyAction_ok_valid h
  cases a with
  | update u d =>
    simp only [unitActionName] at hv
    rw [applyAction_update, updateUnit_valid_eq st u d hv] at h
    by_cases he : d = (st.lookup u).getD ""
    · rw [if_pos he] at h
      cases h
      exact hst
    · rw [if_neg he] at h
      cases h
      exact nodup_envKeys_dictUpdate u d hst
  | remove u =>
    simp only [unitActionName] at hv
    rw [applyAction_remove, removeUnit_valid_eq st u hv] at h
    by_cases he : (st.lookup u).isSome
    · rw [if_pos he] at h
      cases h
      exact (envKeys_dictPop_sublist st u).nodup hst
    · rw [if_neg he] at h
      cases h
      exact hst

theorem applyAction_settles {st st1 : UnitStore} {c1 : Bool} {a : UnitAction}
    (h : applyAction st a = .ok (st1, c1)) (hst : (envKeys st).Nodup) :
    actionSettled st1 a := by
  have hv := applyAction_ok_valid h
  cases a with
  | update u d =>
    simp only [unitActionName] at hv
    rw [applyAction_update, updateUnit_valid_eq st u d hv] at h
    by_cases he : d = (st.lookup u).getD ""
    · rw [if_pos he] at h
      cases h
      exact he.symm
    · rw [if_neg he] at h
      cases h
      rw [actionSettled, lookup_dictUpdate_self]
      rfl
  | remove u =>
    simp only [unitActionName] at hv
    rw [applyAction_remove, removeUnit_valid_eq st u hv] at h
    by_cases he : (st.lookup u).isSome
    · rw [if_pos he] at h
      cases h
      exact lookup_dictPop_self hst u
    · rw [if_neg he] at h
      cases h
      rw [actionSettled]
      exact Option.not_isSome_iff_eq_none.mp he

theorem actionSettled_congr {st st1 : UnitStore} {a : UnitAction}
    (hl : st1.lookup (unitActionName a) = st.lookup (unitActionName a))
    (hs : actionSettled st a) : actionSettled st1 a := by
  cases a with
  | update u d =>
    simp only [unitActionName] at hl
    rw [actionSettled] at hs ⊢
    rw [hl]
    exact hs
  | remove u =>
    simp only [unitActionName] at hl
    rw [actionSettled] at hs ⊢
    rw [hl]
    exact hs

theorem applyAction_noop {st : UnitStore} {a : UnitAction}
    (hv : unitExtSearch (unitActionName a) = true) (hs : actionSettled st a) :
    applyAction st a = .ok (st, false) := by
  cases a with
  | update u d =>
    simp only [unitActionName] at hv
    rw [actionSettled] at hs
    rw [applyAction_update, updateUnit_valid_eq st u d hv, if_pos hs.symm]
  | remove u =>
    simp only [unitActionName] at hv
    rw [actionSettled] at hs
    rw [applyAction_remove, removeUnit_valid_eq st u hv, if_neg (by simp [hs])]

theorem applyActions_cons (st : UnitStore) (a : UnitAction)
    (rest : List UnitAction) :
    applyActions st (a :: rest) =
      match applyAction st a with
      | .error e => .error e
      | .ok (st1, c1) =>
        match applyActions st1 rest with
        | .error e => .error e
        | .ok (st2, c2) => .ok (st2, c1 || c2) := rfl

theorem applyActions_cons_ok {st stA : UnitStore} {cA : Bool} {a : UnitAction}
    {rest : List UnitAction} (ha : applyAction st a = .ok (stA, cA)) :
    applyActions st (a :: rest) =
      match applyActions stA rest with
      | .error e => .error e
      | .ok (st2, c2) => .ok (st2, cA || c2) := by
  rw [applyActions_cons, ha]

theorem applyActions_cons_ok_ok {st stA stF : UnitStore} {cA cF : Bool}
    {a : UnitAction} {rest : List UnitAction}
    (ha : applyAction st a = .ok (stA, cA))
    (hr : applyActions stA rest = .ok (stF, cF)) :
    applyActions st (a :: rest) = .ok (stF, cA || cF) := by
  rw [applyActions_cons_ok ha, hr]

theorem applyActions_cons_error {st stA : UnitStore} {cA : Bool}
    {a : UnitAction} {rest : List UnitAction} {e : String}
    (ha : applyAction st a = .ok (stA, cA))
    (hr : applyActions stA rest = .error e) :
    applyActions st (a :: rest) = .error e := by
  rw [applyActions_cons_ok ha, hr]

theorem applyActions_frame (acts : List UnitAction) :
    ∀ (st st1 : UnitStore) (c1 : Bool),
      applyActions st acts = .ok (st1, c1) →
      ∀ x, x ∉ acts.map unitActionName → st1.lookup x = st.lookup x := by
  induction acts with
  | nil =>
    intro st st1 c1 h x _
    cases h
    rfl
  | cons a rest ih =>
    intro st st1 c1 h x hx
    rcases ha : applyAction st a with e | ⟨stA, cA⟩
    · rw [applyActions_cons, ha] at h
      cases h
    · rcases hr : applyActions stA rest with e | ⟨stF, cF⟩
      · rw [applyActions_cons_error ha hr] at h
        cases h
      · rw [applyActions_cons_ok_ok ha hr] at h
        cases h
        rw [List.map_cons, List.mem_cons, not_or] at hx
        rw [ih _ _ _ hr x hx.2]
        exact applyAction_frame ha x hx.1

theorem applyActions_idem (acts : List UnitAction)
    (hnames : (acts.map unitActionName).Nodup)
    (hvalid : ∀ a ∈ acts, unitExtSearch (unitActionName a) = true) :
    ∀ st : UnitStore, (envKeys st).Nodup →
      ∃ st1 c1, applyActions st acts = .ok (st1, c1) ∧
        applyActions st1 acts = .ok (st1, false) := by
  induction acts with
  | nil =>
    intro st _
    exact ⟨st, false, rfl, rfl⟩
  | cons a rest ih =>
    intro st hst
    rw [List.map_cons, List.nodup_cons] at hnames
    obtain ⟨⟨stA, cA⟩, hA⟩ :=
      applyAction_ok st a (hvalid a (List.mem_cons_self _ _))
    have hstA := applyAction_nodup hA hst
    obtain ⟨stF, cF, hF, hF2⟩ :=
      ih hnames.2 (fun b hb => hvalid b (List.mem_cons_of_mem _ hb)) stA hstA
    have hsettled : actionSettled stA a := applyAction_settles hA hst
    have hframe : stF.lookup (unitActionName a) = stA.lookup (unitActionName a) :=
      applyActions_frame rest stA stF cF hF (unitActionName a) hnames.1
    have hsettledF : actionSettled stF a := actionSettled_congr hframe hsettled
    have hnoop : applyAction stF a = .ok (stF, false) :=
      applyAction_noop (hvalid a (List.mem_cons_self _ _)) hsettledF
    refine ⟨stF, cA || cF, applyActions_cons_ok_ok hA hF, ?_⟩
    rw [applyActions_cons_ok_ok hnoop hF2]
    rfl

/-! ## The generated unit names: all valid, pairwise distinct -/

theorem unitExtSearchL_cons (c : Char) (l : List Char) :
    unitExtSearchL (c :: l) = (unitExtCls (c :: l) || unitExtSearchL l) := rfl

theorem unitExtSearchL_append (a b : List Char)
    (hb : unitExtSearchL b = true) : unitExtSearchL (a ++ b) = true := by
  induction a with
  | nil => simpa using hb
  | cons c t ih =>
    rw [List.cons_append, unitExtSearchL_cons, Bool.or_eq_true]
    exact Or.inr ih

theorem unitExtSearch_custom_conf (q : String) :
    unitExtSearch (q ++ ".service.d/50_custom.conf") = true := by
  rw [unitExtSearch, String.data_append]
  exact unitExtSearchL_append _ _ (by decide)

theorem ne_of_no_suffix (q g s : String)
    (hs : ¬ (s.data <:+ g.data)) : q ++ s ≠ g := by
  intro h
  apply hs
  rw [← h, String.data_append]
  exact ⟨q.data, rfl⟩

/-- The unit names emitted by generate_units, in order. -/
theorem generateUnits_names (d : WmDescriptor) (binName binPath : String) :
    (generateUnits d binName binPath).map unitActionName =
      ["wayland-session-pre@.target", "wayland-session@.target",
       "wayland-session-xdg-autostart@.target",
       "wayland-session-shutdown.target", "wayland-wm-env@.service",
       "wayland-wm@.service", "wayland-wm-app-daemon.service",
       "app-graphical.slice", "background-graphical.slice",
       "session-graphical.slice",
       "wayland-wm-env@" ++ (simpleSystemdEscape false d.wm_id.data).asString ++
         ".service.d/50_custom.conf",
       "wayland-wm@" ++ (simpleSystemdEscape false d.wm_id.data).asString ++
         ".service.d/50_custom.conf",
       "app-@autostart.service.d/slice-tweak.conf"] := by
  simp only [generateUnits, List.map_cons, List.map_nil,
    apply_ite unitActionName]
  simp only [unitActionName, ite_self]

theorem generateUnits_names_valid (d : WmDescriptor) (binName binPath : String) :
    ∀ a ∈ generateUnits d binName binPath,
      unitExtSearch (unitActionName a) = true := by
  intro a ha
  have hmem : unitActionName a ∈
      (generateUnits d binName binPath).map unitActionName :=
    List.mem_map_of_mem unitActionName ha
  rw [generateUnits_names] at hmem
  simp only [List.mem_cons, List.not_mem_nil, or_false] at hmem
  rcases hmem with h | h | h | h | h | h | h | h | h | h | h | h | h <;>
    rw [h] <;>
    first
      | exact unitExtSearch_custom_conf _
      | decide

theorem generateUnits_names_nodup (d : WmDescriptor) (binName binPath : String) :
    ((generateUnits d binName binPath).map unitActionName).Nodup := by
  rw [generateUnits_names]
  have hsuffix : ∀ g ∈ ["wayland-session-pre@.target", "wayland-session@.target",
      "wayland-session-xdg-autostart@.target", "wayland-session-shutdown.target",
      "wayland-wm-env@.service", "wayland-wm@.service",
      "wayland-wm-app-daemon.service", "app-graphical.slice",
      "background-graphical.slice", "session-graphical.slice",
      "app-@autostart.service.d/slice-tweak.conf"],
      ¬ (".service.d/50_custom.conf".data <:+ g.data) := by decide
  set e := (simpleSystemdEscape false d.wm_id.data).asString with he
  rw [show (["wayland-session-pre@.target", "wayland-session@.target",
       "wayland-session-xdg-autostart@.target",
       "wayland-session-shutdown.target", "wayland-wm-env@.service",
       "wayland-wm@.service", "wayland-wm-app-daemon.service",
       "app-graphical.slice", "background-graphical.slice",
       "session-graphical.slice",
       "wayland-wm-env@" ++ e ++ ".service.d/50_custom.conf",
       "wayland-wm@" ++ e ++ ".service.d/50_custom.conf",
       "app-@autostart.service.d/slice-tweak.conf"] : List String) =
      ["wayland-session-pre@.target", "wayland-session@.target",
       "wayland-session-xdg-autostart@.target",
       "wayland-session-shutdown.target", "wayland-wm-env@.service",
       "wayland-wm@.service", "wayland-wm-app-daemon.service",
       "app-graphical.slice", "background-graphical.slice",
       "session-graphical.slice"] ++
      ["wayland-wm-env@" ++ e ++ ".service.d/50_custom.conf",
       "wayland-wm@" ++ e ++ ".service.d/50_custom.conf",
       "app-@autostart.service.d/slice-tweak.conf"] from rfl]
  apply List.Nodup.append
  · decide
  · rw [List.nodup_cons, List.nodup_cons]
    refine ⟨?_, ?_, by simp⟩
    · rw [List.mem_cons, List.mem_cons]
      rintro (h | h | h)
      · have hlen := congrArg String.length h
        simp only [String.length_append] at hlen
        have h1 : ("wayland-wm-env@" : String).length = 15 := rfl
        have h2 : ("wayland-wm@" : String).length = 11 := rfl
        rw [h1, h2] at hlen
        omega
      · exact ne_of_no_suffix _ _ _ (hsuffix _ (by decide)) h
      · cases h
    · rw [List.mem_cons]
      rintro (h | h)
      · exact ne_of_no_suffix _ _ _ (hsuffix _ (by decide)) h
      · cases h
  · intro x hx hmem
    rw [List.mem_cons, List.mem_cons, List.mem_cons] at hmem
    have hx11 : x ∈ ["wayland-session-pre@.target", "wayland-session@.target",
        "wayland-session-xdg-autostart@.target",
        "wayland-session-shutdown.target", "wayland-wm-env@.service",
        "wayland-wm@.service", "wayland-wm-app-daemon.service",
        "app-graphical.slice", "background-graphical.slice",
        "session-graphical.slice", "app-@autostart.service.d/slice-tweak.conf"] := by
      have h2 : x ∈ (["wayland-session-pre@.target", "wayland-session@.target",
          "wayland-session-xdg-autostart@.target",
          "wayland-session-shutdown.target", "wayland-wm-env@.service",
          "wayland-wm@.service", "wayland-wm-app-daemon.service",
          "app-graphical.slice", "background-graphical.slice",
          "session-graphical.slice"] ++
          ["app-@autostart.service.d/slice-tweak.conf"]) :=
        List.mem_append_left _ hx
      exact h2
    rcases hmem with h | h | h | h
    · exact ne_of_no_suffix _ _ _ (hsuffix x hx11) h.symm
    · exact ne_of_no_suffix _ _ _ (hsuffix x hx11) h.symm
    · rw [h] at hx
      exact absurd hx (by decide)
    · cases h

example : escTokensB ['a', '\\', 'x', '0', 'f'] = true := by decide

example : escTokensB ['a', '\\', 'x', '0'] = false := by decide

example : escTokensB ['\\', 'q'] = false := by decide

theorem escTokensAux_zero_cons_ne {c : Char} (hc : c ≠ '\\') (t : List Char) :
    escTokensAux 0 (c :: t) = escTokensAux 0 t := by
  rw [escTokensAux, if_neg hc]

theorem escTokensAux_append :
    ∀ (x : List Char) (s : Nat) (y : List Char), escTokensAux s x = true →
      escTokensAux 0 y = true → escTokensAux s (x ++ y) = true := by
  intro x
  induction x with
  | nil =>
    intro s y hx hy
    match s with
    | 0 => simpa using hy
    | n + 1 =>
      rw [escTokensAux] at hx
      cases hx
  | cons c t ih =>
    intro s y hx hy
    match s with
    | 0 =>
      rw [escTokensAux] at hx
      rw [List.cons_append, escTokensAux]
      by_cases hc : c = '\\'
      · rw [if_pos hc] at hx ⊢
        exact ih 3 y hx hy
      · rw [if_neg hc] at hx ⊢
        exact ih 0 y hx hy
    | 3 =>
      rw [escTokensAux] at hx
      rw [List.cons_append, escTokensAux]
      by_cases hc : c = 'x'
      · rw [if_pos hc] at hx ⊢
        exact ih 2 y hx hy
      · rw [if_neg hc] at hx
        cases hx
    | 2 =>
      rw [escTokensAux] at hx
      rw [List.cons_append, escTokensAux]
      by_cases hc : isHexDigitB c = true
      · rw [if_pos hc] at hx ⊢
        exact ih 1 y hx hy
      · rw [if_neg hc] at hx
        cases hx
    | 1 =>
      rw [escTokensAux] at hx
      rw [List.cons_append, escTokensAux]
      by_cases hc : isHexDigitB c = true
      · rw [if_pos hc] at hx ⊢
        exact ih 0 y hx hy
      · rw [if_neg hc] at hx
        cases hx
    | n + 4 =>
      rw [escTokensAux] at hx
      cases hx

theorem escTokensAux_no_backslash :
    ∀ l : List Char, (∀ c ∈ l, c ≠ '\\') → escTokensAux 0 l = true := by
  intro l
  induction l with
  | nil => intro _; rfl
  | cons c t ih =>
    intro h
    rw [escTokensAux_zero_cons_ne (h c (List.mem_cons_self _ _))]
    exact ih fun d hd => h d (List.mem_cons_of_mem _ hd)

theorem escTokensAux_esc_tok {a b : Char} (ha : isHexDigitB a = true)
    (hb : isHexDigitB b = true) :
    escTokensAux 0 ['\\', 'x', a, b] = true := by
  rw [escTokensAux, if_pos rfl, escTokensAux, if_pos rfl, escTokensAux,
    if_pos ha, escTokensAux, if_pos hb]
  rfl

theorem isHexDigitB_hexDigitLower {n : Nat} (h : n < 16) :
    isHexDigitB (hexDigitLower n) = true := by
  interval_cases n <;> decide

theorem char_toNat_lt (c : Char) : c.toNat < 1114112 := by
  rcases c.valid with h | ⟨h1, h2⟩
  · exact Nat.lt_trans h (by norm_num)
  · exact h2

theorem utf8Bytes_lt (c : Char) : ∀ b ∈ utf8Bytes c, b < 256 := by
  have hc := char_toNat_lt c
  intro b hb
  rw [utf8Bytes] at hb
  by_cases h1 : c.toNat < 0x80
  · rw [if_pos h1] at hb
    simp only [List.mem_singleton] at hb
    omega
  · rw [if_neg h1] at hb
    by_cases h2 : c.toNat < 0x800
    · rw [if_pos h2] at hb
      simp only [List.mem_cons, List.not_mem_nil, or_false] at hb
      rcases hb with rfl | rfl <;> omega
    · rw [if_neg h2] at hb
      by_cases h3 : c.toNat < 0x10000
      · rw [if_pos h3] at hb
        simp only [List.mem_cons, List.not_mem_nil, or_false] at hb
        rcases hb with rfl | rfl | rfl <;> omega
      · rw [if_neg h3] at hb
        simp only [List.mem_cons, List.not_mem_nil, or_false] at hb
        rcases hb with rfl | rfl | rfl | rfl <;> omega

theorem escChunks_wf (bs : List Nat) (h : ∀ b ∈ bs, b < 256) :
    escTokensAux 0 (bs.flatMap
      (fun b => ['\\', 'x', hexDigitLower (b / 16), hexDigitLower (b % 16)])) =
      true := by
  induction bs with
  | nil => rfl
  | cons b bs ih =>
    rw [List.flatMap_cons]
    have hb : b < 256 := h b (List.mem_cons_self _ _)
    exact escTokensAux_append _ 0 _
      (escTokensAux_esc_tok (isHexDigitB_hexDigitLower (by omega))
        (isHexDigitB_hexDigitLower (by omega)))
      (ih fun d hd => h d (List.mem_cons_of_mem _ hd))

theorem char2cesc_wf (c : Char) : escTokensAux 0 (char2cesc c) = true :=
  escChunks_wf (utf8Bytes c) (utf8Bytes_lt c)

theorem escChar_wf (c : Char) : escTokensAux 0 (escChar c) = true := by
  rw [escChar]
  by_cases h1 : c = '/'
  · rw [if_pos h1]
    decide
  · rw [if_neg h1]
    by_cases h2 : (c.toNat = 46 || c.toNat = 95 ||
        (48 ≤ c.toNat && c.toNat ≤ 58) || (65 ≤ c.toNat && c.toNat ≤ 90) ||
        (97 ≤ c.toNat && c.toNat ≤ 122)) = true
    · rw [if_pos h2]
      refine escTokensAux_no_backslash _ ?_
      intro d hd
      simp only [List.mem_singleton] at hd
      subst hd
      intro he
      rw [he] at h2
      exact absurd h2 (by decide)
    · rw [if_neg h2]
      exact char2cesc_wf c

theorem flatMap_escChar_wf (s : List Char) :
    escTokensAux 0 (s.flatMap escChar) = true := by
  induction s with
  | nil => rfl
  | cons c t ih =>
    rw [List.flatMap_cons]
    exact escTokensAux_append _ 0 _ (escChar_wf c) ih

theorem simpleSystemdEscape_false_wf (s : List Char) :
    escTokensAux 0 (simpleSystemdEscape false s) = true :=
  flatMap_escChar_wf s

theorem splitEsc_nil : splitEsc [] = [[]] := by
  rw [splitEsc]

theorem splitEsc_esc {a b : Char} (ha : a ≠ '\n') (hb : b ≠ '\n')
    (rest : List Char) :
    splitEsc ('\\' :: 'x' :: a :: b :: rest) =
      [] :: ['\\', 'x', a, b] :: splitEsc rest := by
  rw [splitEsc, if_pos ⟨ha, hb⟩]

theorem splitEsc_cons_ne {c : Char} (hc : c ≠ '\\') (rest : List Char) :
    splitEsc (c :: rest) = consFrag c (splitEsc rest) := by
  rw [splitEsc.eq_def]
  split
  · rename_i a b rest2 heq
    cases heq
    exact absurd rfl hc
  · rename_i c2 rest2 heq
    cases heq
    rfl
  · rename_i heq
    cases heq

theorem escAux_backslash_inversion {t : List Char}
    (h : escTokensAux 0 ('\\' :: t) = true) :
    ∃ a b t2, t = 'x' :: a :: b :: t2 ∧ isHexDigitB a = true ∧
      isHexDigitB b = true ∧ escTokensAux 0 t2 = true := by
  rw [escTokensAux, if_pos rfl] at h
  match t with
  | [] => rw [escTokensAux] at h; cases h
  | c :: t1 =>
    rw [escTokensAux] at h
    by_cases hc : c = 'x'
    · rw [if_pos hc] at h
      subst hc
      match t1 with
      | [] => rw [escTokensAux] at h; cases h
      | a :: t2 =>
        rw [escTokensAux] at h
        by_cases ha : isHexDigitB a = true
        · rw [if_pos ha] at h
          match t2 with
          | [] => rw [escTokensAux] at h; cases h
          | b :: t3 =>
            rw [escTokensAux] at h
            by_cases hb : isHexDigitB b = true
            · rw [if_pos hb] at h
              exact ⟨a, b, t3, rfl, ha, hb, h⟩
            · rw [if_neg hb] at h; cases h
        · rw [if_neg ha] at h; cases h
    · rw [if_neg hc] at h; cases h

theorem isHexDigitB_ne_nl {c : Char} (h : isHexDigitB c = true) : c ≠ '\n' := by
  intro he
  subst he
  exact absurd h (by decide)

theorem splitEsc_good : ∀ (n : Nat) (l : List Char), l.length ≤ n →
    escTokensAux 0 l = true →
    ∃ f fs, splitEsc l = f :: fs ∧ (∀ c ∈ f, c ≠ '\\') ∧
      ∀ g ∈ fs, goodFrag g := by
  intro n
  induction n with
  | zero =>
    intro l hl _
    have hnil : l = [] := List.eq_nil_of_length_eq_zero (Nat.le_zero.mp hl)
    subst hnil
    exact ⟨[], [], splitEsc_nil, by simp, by simp⟩
  | succ n ih =>
    intro l hl hwf
    match l with
    | [] => exact ⟨[], [], splitEsc_nil, by simp, by simp⟩
    | c :: t =>
      by_cases hc : c = '\\'
      · subst hc
        obtain ⟨a, b, t2, rfl, ha, hb, hwf2⟩ := escAux_backslash_inversion hwf
        rw [splitEsc_esc (isHexDigitB_ne_nl ha) (isHexDigitB_ne_nl hb)]
        have hlen : t2.length ≤ n := by
          simp only [List.length_cons] at hl
          omega
        obtain ⟨f2, fs2, hsp2, hf2, hfs2⟩ := ih t2 hlen hwf2
        rw [hsp2]
        refine ⟨[], ['\\', 'x', a, b] :: f2 :: fs2, rfl, by simp, ?_⟩
        intro g hg
        rcases List.mem_cons.mp hg with rfl | hg2
        · exact Or.inr ⟨a, b, rfl, ha, hb⟩
        · rcases List.mem_cons.mp hg2 with rfl | hg3
          · exact Or.inl hf2
          · exact hfs2 g hg3
      · rw [splitEsc_cons_ne hc]
        rw [escTokensAux_zero_cons_ne hc] at hwf
        have hlen : t.length ≤ n := by
          simp only [List.length_cons] at hl
          omega
        obtain ⟨f, fs, hsp, hf, hfs⟩ := ih t hlen hwf
        rw [hsp]
        refine ⟨c :: f, fs, rfl, ?_, hfs⟩
        intro d hd
        rcases List.mem_cons.mp hd with rfl | hd2
        · exact hc
        · exact hf d hd2

theorem trimFrags_length (limit : Nat) (fs : List (List Char)) :
    ∀ lcheck, lcheck ≤ limit →
      lcheck + (trimFrags limit lcheck fs).length ≤ limit := by
  induction fs with
  | nil =>
    intro lcheck h
    rw [trimFrags]
    simpa
  | cons f rest ih =>
    intro lcheck h
    rw [trimFrags]
    split
    · rename_i hlt
      rw [List.length_append]
      have h2 := ih (lcheck + f.length) (by omega)
      omega
    · split
      · simpa
      · rw [List.length_take]
        omega

theorem trimFrags_wf (limit : Nat) (fs : List (List Char))
    (h : ∀ g ∈ fs, goodFrag g) :
    ∀ lcheck, escTokensAux 0 (trimFrags limit lcheck fs) = true := by
  induction fs with
  | nil =>
    intro lcheck
    rw [trimFrags]
    rfl
  | cons f rest ih =>
    intro lcheck
    rw [trimFrags]
    have hf : goodFrag f := h f (List.mem_cons_self _ _)
    split
    · refine escTokensAux_append _ 0 _ ?_
        (ih (fun g hg => h g (List.mem_cons_of_mem _ hg)) _)
      rcases hf with hnb | ⟨a, b, rfl, ha, hb⟩
      · exact escTokensAux_no_backslash f hnb
      · exact escTokensAux_esc_tok ha hb
    · split
      · rfl
      · rename_i htake
        rcases hf with hnb | ⟨a, b, rfl, ha, hb⟩
        · refine escTokensAux_no_backslash _ ?_
          intro d hd
          exact hnb d (List.take_subset _ _ hd)
        · exact absurd rfl htake

theorem goodFrags_splitEsc (l : List Char) (h : escTokensAux 0 l = true) :
    ∀ g ∈ splitEsc l, goodFrag g := by
  obtain ⟨f, fs, hsp, hf, hfs⟩ := splitEsc_good l.length l le_rfl h
  rw [hsp]
  intro g hg
  rcases List.mem_cons.mp hg with rfl | hg2
  · exact Or.inl hf
  · exact hfs g hg2

theorem trimmedDesktop_le (desktop appUnitType : String)
    (h : "app---DEADBEEF.".length + appUnitType.length ≤ 127) :
    "app---DEADBEEF.".length + appUnitType.length +
      (trimmedDesktop desktop appUnitType).length ≤ 127 := by
  simp only [trimmedDesktop]
  split
  · rename_i hgt
    exact trimFrags_length 127 _ _ h
  · rename_i hle
    omega

theorem trimmedDesktop_wf (desktop appUnitType : String) :
    escTokensAux 0 (trimmedDesktop desktop appUnitType) = true := by
  simp only [trimmedDesktop]
  split
  · exact trimFrags_wf 127 _
      (goodFrags_splitEsc _ (simpleSystemdEscape_false_wf _)) _
  · exact simpleSystemdEscape_false_wf _

theorem trimmedCmd_le (desktop cmd appUnitType : String)
    (h : "app---DEADBEEF.".length + appUnitType.length +
      (trimmedDesktop desktop appUnitType).length ≤ 127) :
    "app---DEADBEEF.".length + appUnitType.length +
      (trimmedDesktop desktop appUnitType).length +
      (trimmedCmd desktop cmd appUnitType).length ≤ 255 := by
  simp only [trimmedCmd]
  split
  · rename_i hgt
    exact trimFrags_length 255 _ _ (by omega)
  · rename_i hle
    omega

theorem trimmedCmd_wf (desktop cmd appUnitType : String) :
    escTokensAux 0 (trimmedCmd desktop cmd appUnitType) = true := by
  simp only [trimmedCmd]
  split
  · exact trimFrags_wf 255 _
      (goodFrags_splitEsc _ (simpleSystemdEscape_false_wf _)) _
  · exact simpleSystemdEscape_false_wf _

/-- C8: for every desktop-name and command combination, the scope/service
unit name synthesized by app never exceeds 255 characters, and no
truncation cuts a \xHH escape sequence in the middle: the name parses as
a sequence of plain non-backslash characters and complete \xHH escapes
(escTokensAux 0), so it cannot end mid-escape. random_hex(8) is passed in
as hex8 (8 characters, no backslash). -/
theorem app_unit_name_ok (desktop cmd appUnitType hex8 : String)
    (htype : appUnitType = "scope" ∨ appUnitType = "service")
    (hhexlen : hex8.length = 8)
    (hhex : ∀ c ∈ hex8.data, c ≠ '\\') :
    (appUnitName desktop cmd appUnitType hex8).length ≤ 255 ∧
    escTokensAux 0 (appUnitName desktop cmd appUnitType hex8) = true := by
  have hstatic : "app---DEADBEEF.".length + appUnitType.length ≤ 127 := by
    rcases htype with h | h <;> rw [h] <;> decide
  have hdu := trimmedDesktop_le desktop appUnitType hstatic
  have hcu := trimmedCmd_le desktop cmd appUnitType hdu
  constructor
  · rw [appUnitName]
    simp only [List.length_append, List.length_cons, List.length_nil]
    have h8 : hex8.data.length = 8 := hhexlen
    have hdead : ("app---DEADBEEF." : String).length = 15 := rfl
    have htl : appUnitType.data.length = appUnitType.length := rfl
    have hsep : (if appUnitType = "scope" then ['-'] else ['@']).length = 1 := by
      split <;> rfl
    rw [h8, htl, hsep]
    rw [hdead] at hcu
    omega
  · rw [appUnitName]
    simp only [List.append_assoc]
    refine escTokensAux_append _ 0 _ (by decide) ?_
    refine escTokensAux_append _ 0 _ (trimmedDesktop_wf _ _) ?_
    refine escTokensAux_append _ 0 _ (by decide) ?_
    refine escTokensAux_append _ 0 _ (trimmedCmd_wf _ _ _) ?_
    refine escTokensAux_append _ 0 _ ?_ ?_
    · split <;> decide
    refine escTokensAux_append _ 0 _ (escTokensAux_no_backslash _ hhex) ?_
    refine escTokensAux_append _ 0 _ (by decide) ?_
    rcases htype with h | h <;> rw [h] <;> decide

/-- Witness for C8 at a concrete desktop name and command (both needing
escapes) with unit type scope and a fixed hex suffix. -/
theorem app_unit_name_ok_witness :
    (("scope" : String) = "scope" ∨ ("scope" : String) = "service") ∧
    ("abcdef01" : String).length = 8 ∧
    (∀ c ∈ ("abcdef01" : String).data, c ≠ '\\') ∧
    ((appUnitName "My Desktop" "some/cmd" "scope" "abcdef01").length ≤ 255 ∧
      escTokensAux 0 (appUnitName "My Desktop" "some/cmd" "scope" "abcdef01") =
        true) :=
  ⟨Or.inl rfl, by decide, by decide,
   app_unit_name_ok "My Desktop" "some/cmd" "scope" "abcdef01" (Or.inl rfl)
     (by decide) (by decide)⟩

theorem isFuField_cases {arg : String} (h : isFuField arg = true) :
    arg = "%f" ∨ arg = "%F" ∨ arg = "%u" ∨ arg = "%U" := by
  rw [isFuField] at h
  simp only [Bool.or_eq_true, decide_eq_true_eq] at h
  tauto

theorem isFuField_ne_empty {arg : String} (h : isFuField arg = true) :
    arg ≠ "" := by
  rcases isFuField_cases h with rfl | rfl | rfl | rfl <;> decide

theorem fieldStep_field_error (e : EntryInfo) (args : List String) (st : GenSt)
    (idx : Nat) {arg : String} (hf : isFuField arg = true)
    (henc : st.encountered ≠ "") :
    fieldStep e args st idx arg =
      .error ("Desktop entry has conflicting args: \"" ++ st.encountered ++
        "\", \"" ++ arg ++ "\"") := by
  rcases isFuField_cases hf with rfl | rfl | rfl | rfl
  · unfold fieldStep
    rw [if_pos rfl, if_pos henc]
  · unfold fieldStep
    rw [if_neg (by decide), if_pos rfl, if_pos henc]
  · unfold fieldStep
    rw [if_neg (by decide), if_neg (by decide), if_pos rfl, if_pos henc]
  · unfold fieldStep
    rw [if_neg (by decide), if_neg (by decide), if_neg (by decide), if_pos rfl,
      if_pos henc]

theorem fieldStep_nonfield (e : EntryInfo) (args : List String) (st : GenSt)
    (idx : Nat) {arg : String} (hf : isFuField arg = false) :
    ∃ st2, fieldStep e args st idx arg = .ok st2 ∧
      st2.encountered = st.encountered := by
  have h1 : arg ≠ "%f" := by
    intro he
    rw [he] at hf
    exact absurd hf (by decide)
  have h2 : arg ≠ "%F" := by
    intro he
    rw [he] at hf
    exact absurd hf (by decide)
  have h3 : arg ≠ "%u" := by
    intro he
    rw [he] at hf
    exact absurd hf (by decide)
  have h4 : arg ≠ "%U" := by
    intro he
    rw [he] at hf
    exact absurd hf (by decide)
  unfold fieldStep
  rw [if_neg h1, if_neg h2, if_neg h3, if_neg h4]
  by_cases h5 : arg = "%c"
  · rw [if_pos h5]
    exact ⟨_, rfl, rfl⟩
  · rw [if_neg h5]
    by_cases h6 : arg = "%k"
    · rw [if_pos h6]
      exact ⟨_, rfl, rfl⟩
    · rw [if_neg h6]
      by_cases h7 : arg = "%i"
      · rw [if_pos h7]
        by_cases h8 : e.icon ≠ ""
        · rw [if_pos h8]
          exact ⟨_, rfl, rfl⟩
        · rw [if_neg h8]
          exact ⟨_, rfl, rfl⟩
      · rw [if_neg h7]
        exact ⟨_, rfl, rfl⟩

theorem fieldStep_first_field (e : EntryInfo) (args : List String) (st : GenSt)
    (idx : Nat) {arg : String} (hf : isFuField arg = true)
    (henc : st.encountered = "") :
    ∃ st2, fieldStep e args st idx arg = .ok st2 ∧ st2.encountered = arg := by
  have hne : ¬ (st.encountered ≠ "") := by simp [henc]
  rcases isFuField_cases hf with rfl | rfl | rfl | rfl
  · rcases args with _ | ⟨a, t⟩
    · unfold fieldStep
      rw [if_pos rfl, if_neg hne, if_pos (by simp)]
      exact ⟨_, rfl, rfl⟩
    · unfold fieldStep
      rw [if_pos rfl, if_neg hne]
      by_cases hlen : (a :: t).length ≤ 1
      · rw [if_pos hlen]
        exact ⟨_, rfl, rfl⟩
      · rw [if_neg hlen]
        exact ⟨_, rfl, rfl⟩
  · unfold fieldStep
    rw [if_neg (by decide), if_pos rfl, if_neg hne]
    exact ⟨_, rfl, rfl⟩
  · rcases args with _ | ⟨a, t⟩
    · unfold fieldStep
      rw [if_neg (by decide), if_neg (by decide), if_pos rfl, if_neg hne,
        if_pos (by simp)]
      exact ⟨_, rfl, rfl⟩
    · unfold fieldStep
      rw [if_neg (by decide), if_neg (by decide), if_pos rfl, if_neg hne]
      by_cases hlen : (a :: t).length ≤ 1
      · rw [if_pos hlen]
        exact ⟨_, rfl, rfl⟩
      · rw [if_neg hlen]
        exact ⟨_, rfl, rfl⟩
  · unfold fieldStep
    rw [if_neg (by decide), if_neg (by decide), if_neg (by decide), if_pos rfl,
      if_neg hne]
    exact ⟨_, rfl, rfl⟩

theorem processFields_cons (e : EntryInfo) (args : List String) (st : GenSt)
    (idx : Nat) (arg : String) (rest : List (Nat × String)) :
    processFields e args st ((idx, arg) :: rest) =
      match fieldStep e args st idx arg with
      | .ok st2 => processFields e args st2 rest
      | .error m => .error m := rfl

theorem processFields_second_field (e : EntryInfo) (args : List String) :
    ∀ (l : List (Nat × String)) (st : GenSt), st.encountered ≠ "" →
      (∃ p ∈ l, isFuField p.2 = true) →
      ∃ m, processFields e args st l = .error m := by
  intro l
  induction l with
  | nil =>
    intro st _ hex
    rcases hex with ⟨p, hp, -⟩
    cases hp
  | cons q rest ih =>
    intro st henc hex
    obtain ⟨idx, arg⟩ := q
    by_cases hfa : isFuField arg = true
    · refine ⟨"Desktop entry has conflicting args: \"" ++ st.encountered ++
        "\", \"" ++ arg ++ "\"", ?_⟩
      rw [processFields_cons, fieldStep_field_error e args st idx hfa henc]
    · have hfa2 : isFuField arg = false := by simpa using hfa
      obtain ⟨st2, hok, henc2⟩ := fieldStep_nonfield e args st idx hfa2
      have hex2 : ∃ p ∈ rest, isFuField p.2 = true := by
        rcases hex with ⟨p, hp, hpf⟩
        rcases List.mem_cons.mp hp with rfl | hp2
        · exact absurd hpf hfa
        · exact ⟨p, hp2, hpf⟩
      obtain ⟨m, hm⟩ := ih st2 (henc2 ▸ henc) hex2
      refine ⟨m, ?_⟩
      rw [processFields_cons, hok]
      exact hm

theorem processFields_two_fields (e : EntryInfo) (args : List String) :
    ∀ (l : List (Nat × String)) (st : GenSt), st.encountered = "" →
      2 ≤ (l.map Prod.snd).countP isFuField →
      ∃ m, processFields e args st l = .error m := by
  intro l
  induction l with
  | nil =>
    intro st _ hc
    rw [List.map_nil, List.countP_nil] at hc
    omega
  | cons q rest ih =>
    intro st henc hc
    obtain ⟨idx, arg⟩ := q
    rw [List.map_cons, List.countP_cons] at hc
    by_cases hfa : isFuField arg = true
    · obtain ⟨st2, hok, henc2⟩ := fieldStep_first_field e args st idx hfa henc
      have hex : ∃ p ∈ rest, isFuField p.2 = true := by
        rw [if_pos hfa] at hc
        have hcp : 0 < (rest.map Prod.snd).countP isFuField := by omega
        obtain ⟨s, hs, hsf⟩ := List.countP_pos_iff.mp hcp
        obtain ⟨p, hp, rfl⟩ := List.mem_map.mp hs
        exact ⟨p, hp, hsf⟩
      obtain ⟨m, hm⟩ := processFields_second_field e args rest st2
        (by rw [henc2]; exact isFuField_ne_empty hfa) hex
      refine ⟨m, ?_⟩
      rw [processFields_cons, hok]
      exact hm
    · have hfa2 : isFuField arg = false := by simpa using hfa
      obtain ⟨st2, hok, henc2⟩ := fieldStep_nonfield e args st idx hfa2
      have hc2 : 2 ≤ (rest.map Prod.snd).countP isFuField := by
        rw [if_neg hfa] at hc
        omega
      obtain ⟨m, hm⟩ := ih st2 (henc2.trans henc) hc2
      refine ⟨m, ?_⟩
      rw [processFields_cons, hok]
      exact hm

/-! ## Theorems for C9 -/

/-- C9: whenever the Exec template of a desktop entry contains two or more
of the fields %f, %F, %u, %U (in particular both %f and %F), gen_entry_args
raises an error — the field loop hits the second field with `encountered`
already set and builds no launch command line. -/
theorem gen_entry_args_exclusive (e : EntryInfo) (args : List String)
    (entryAction : Option String)
    (h : 2 ≤ e.execArgs.countP isFuField) :
    ∃ m, genEntryArgs e args entryAction = .error m := by
  have hc : 2 ≤ (e.execArgs.enum.map Prod.snd).countP isFuField := by
    rw [List.enum_map_snd]
    exact h
  obtain ⟨m, hm⟩ := processFields_two_fields e args e.execArgs.enum
    { cur := e.execArgs, expand := 0, encountered := "" } rfl hc
  refine ⟨m, ?_⟩
  unfold genEntryArgs
  rw [hm]

theorem gen_entry_args_exclusive_witness :
    2 ≤ xtermEntry.execArgs.countP isFuField ∧
      ∃ m, genEntryArgs xtermEntry ["a.txt"] none = .error m :=
  ⟨by decide, gen_entry_args_exclusive xtermEntry ["a.txt"] none (by decide)⟩

/-! ## Theorems for C10 -/

/-- C10: Val.sh_varname accepts every single ASCII letter and every name of
length at least two whose head is a letter or underscore and whose tail is
made of word characters; it rejects the one-character name "_", and
filter_varnames therefore drops an entry named "_" from any mapping. -/
theorem sh_varname_characterization :
    (∀ c : Char, isAsciiLetter c = true → shVarnameMatch (String.mk [c]) = true) ∧
    (∀ (c : Char) (rest : List Char), rest ≠ [] →
      (isAsciiLetter c || c = '_') = true → rest.all isWordChar = true →
      shVarnameMatch (String.mk (c :: rest)) = true) ∧
    shVarnameMatch "_" = false ∧
    (∀ (m : EnvMap) (v : String), ("_", v) ∉ filterVarnames m) := by
  refine ⟨?_, ?_, by decide, ?_⟩
  · intro c hc
    simp [shVarnameMatch, hc]
  · intro c rest hne hc hall
    simp [shVarnameMatch, hc, hall, List.isEmpty_iff, hne]
  · intro m v hmem
    have h2 : shVarnameMatch "_" = true := (List.mem_filter.mp hmem).2
    exact absurd h2 (by decide)

/-- Witness for C10 at concrete inputs. -/
theorem sh_varname_characterization_witness :
    shVarnameMatch (String.mk ['a']) = true ∧
    shVarnameMatch (String.mk ['_', 'x']) = true ∧
    shVarnameMatch "_" = false ∧
    ("_", "v") ∉ filterVarnames [("_", "v"), ("PATH", "/usr/bin")] :=
  ⟨sh_varname_characterization.1 'a' (by decide),
   sh_varname_characterization.2.1 '_' ['x'] (by decide) (by decide) (by decide),
   sh_varname_characterization.2.2.1,
   sh_varname_characterization.2.2.2 [("_", "v"), ("PATH", "/usr/bin")] "v"⟩

/-! ## Theorems for C1 -/

/-- C1: cleanup_env does not compute the documented set
`((manifests ∪ always_cleanup) \ never_cleanup) ∩ held`: at a manifest
containing SSH_AUTH_SOCK (member of never_cleanup) while the manager holds
SSH_AUTH_SOCK, the code's operator precedence keeps SSH_AUTH_SOCK in the
unset set, and manifest names are not intersected with the held names at
all (second pair of inputs). -/
theorem cleanup_env_precedence_divergence :
    cleanupEnvVarnames {"SSH_AUTH_SOCK"} {"SSH_AUTH_SOCK"} = {"SSH_AUTH_SOCK"} ∧
    cleanupEnvVarnamesDoc {"SSH_AUTH_SOCK"} {"SSH_AUTH_SOCK"} = ∅ ∧
    cleanupEnvVarnames {"FOO"} ∅ = {"FOO"} ∧
    cleanupEnvVarnamesDoc {"FOO"} ∅ = ∅ := by
  refine ⟨by decide, by decide, by decide, by decide⟩

/-! ## Theorems for C3 -/

/-- C3: for every pre and post snapshot (post with distinct names, as any
dict has), the set of variables prepare_env exports is exactly the
key/value pairs of post not present in pre, union the always_export pairs
present in post, minus every pair named in never_export or always_unset. -/
theorem prepare_env_toSet_policy (envPre envPost : EnvMap)
    (hpost : (envKeys envPost).Nodup) :
    (computeSetEnv envPre envPost).toFinset = specToSet envPre envPost :=
  computeSetEnv_eq_specToSet envPre envPost hpost

/-- Witness for C3 at the scenario snapshots. -/
theorem prepare_env_toSet_policy_witness :
    (envKeys scenarioPost).Nodup ∧
    (computeSetEnv scenarioPre scenarioPost).toFinset =
      specToSet scenarioPre scenarioPost :=
  ⟨by decide, prepare_env_toSet_policy scenarioPre scenarioPost (by decide)⟩

/-! ## Theorems for C2 -/

/-- C2 counterexample: in the spec scenario the pair
WAYLAND_DISPLAY=wayland-1 is NOT exported (WAYLAND_DISPLAY is in the
forced-always-unset set and is excluded from set_env), and toUnset is not
the empty set intersected with the held names: with the manager holding
WAYLAND_DISPLAY, prepare_env unsets it. -/
theorem prepare_env_scenario_counterexample :
    ("WAYLAND_DISPLAY", "wayland-1") ∉
      (computeSetEnv scenarioPre scenarioPost).toFinset ∧
    computeUnsetVarnames scenarioPre scenarioPost {"WAYLAND_DISPLAY"} ≠ ∅ := by
  constructor
  · rw [computeSetEnv_eq_specToSet scenarioPre scenarioPost (by decide)]
    decide
  · decide

/-- C2 amended: in the spec scenario, toSet is exactly PATH=/usr/bin (the
always-export name present in post; WAYLAND_DISPLAY is dropped because it
is in the forced-always-unset set) and toUnset is
{DISPLAY, WAYLAND_DISPLAY} ∩ current-remote-keys. -/
theorem prepare_env_scenario_amended :
    (computeSetEnv scenarioPre scenarioPost).toFinset =
      {("PATH", "/usr/bin")} ∧
    ∀ systemdVarnames : Finset String,
      computeUnsetVarnames scenarioPre scenarioPost systemdVarnames =
        {"DISPLAY", "WAYLAND_DISPLAY"} ∩ systemdVarnames := by
  constructor
  · rw [computeSetEnv_eq_specToSet scenarioPre scenarioPost (by decide)]
    decide
  · intro s
    have h : ((envKeys scenarioPre).toFinset \ (envKeys scenarioPost).toFinset) ∪
        Varnames.always_unset = {"DISPLAY", "WAYLAND_DISPLAY"} := by decide
    unfold computeUnsetVarnames
    rw [h]

/-! ## Theorems for C7 -/

/-- C7: the extension allow-list check is a regex with an unescaped dot
before conf, so the path a.d/bXconf — whose extension is in no allow-list
(not a .conf file, not a unit extension) — passes Val.unit_ext, and both
update_unit and remove_unit proceed on it instead of raising; a genuinely
unsupported extension such as bad.txt is rejected by both before any
filesystem access. -/
theorem unit_ext_accepts_unlisted_extension :
    unitExtSearch "a.d/bXconf" = true ∧
    specUnitExtAllowed "a.d/bXconf" = false ∧
    updateUnit [] "a.d/bXconf" "content" =
      .ok ([("a.d/bXconf", "content")], true) ∧
    removeUnit [] "a.d/bXconf" = .ok ([], false) ∧
    updateUnit [] "bad.txt" "content" =
      .error ("Trying to update unit with unsupported extension: bad.txt") ∧
    removeUnit [] "bad.txt" =
      .error ("Trying to remove unit with unsupported extension: bad.txt") :=
  ⟨by decide, by decide, rfl, rfl, rfl, rfl⟩

/-! ## Theorems for C5 -/

/-- C5 counterexample: for the sway descriptor the Unit Synthesizer
performs 11 generic unit writes (4 targets, 3 services, 3 slices and the
generic autostart drop-in tweak), not 9. -/
theorem generate_units_sway_counterexample :
    countGenericUpdates swayDescriptor
        (generateUnits swayDescriptor "uwsm" "/usr/bin/uwsm") = 11 ∧
    countGenericUpdates swayDescriptor
        (generateUnits swayDescriptor "uwsm" "/usr/bin/uwsm") ≠ 9 := by
  refine ⟨rfl, ?_⟩
  intro h
  rw [show countGenericUpdates swayDescriptor
      (generateUnits swayDescriptor "uwsm" "/usr/bin/uwsm") = 11 from rfl] at h
  cases h

/-- C5 amended: for the sway descriptor (and any binary name/path) the
Unit Synthesizer emits exactly 11 generic units — 4 targets, 3 services,
3 slices, 1 generic drop-in tweak — and zero session-specific drop-ins
(both candidate drop-ins are removals, not writes). -/
theorem generate_units_sway_amended (binName binPath : String) :
    countGenericUpdates swayDescriptor
        (generateUnits swayDescriptor binName binPath) = 11 ∧
    countSpecificUpdates swayDescriptor
        (generateUnits swayDescriptor binName binPath) = 0 :=
  ⟨rfl, rfl⟩

/-! ## Theorems for C6 -/

/-- C6: update_unit writes only when the new content differs from the
existing content and reports whether a write occurred (the updateUnit
definition); consequently reconciling the Unit Synthesizer's output twice
against the same store (any store with distinct unit paths, as a
filesystem is) is change-free the second time: the accumulated
units_changed flag is false, so every update_unit returned false. -/
theorem generate_units_idempotent (d : WmDescriptor) (binName binPath : String)
    (st : UnitStore) (hst : (envKeys st).Nodup) :
    ∃ st1 c1,
      applyActions st (generateUnits d binName binPath) = .ok (st1, c1) ∧
      applyActions st1 (generateUnits d binName binPath) = .ok (st1, false) :=
  applyActions_idem (generateUnits d binName binPath)
    (generateUnits_names_nodup d binName binPath)
    (generateUnits_names_valid d binName binPath) st hst

/-- Witness for C6 on the empty store and the sway descriptor. -/
theorem generate_units_idempotent_witness :
    (envKeys ([] : UnitStore)).Nodup ∧
    ∃ st1 c1,
      applyActions [] (generateUnits swayDescriptor "uwsm" "/usr/bin/uwsm") =
        .ok (st1, c1) ∧
      applyActions st1 (generateUnits swayDescriptor "uwsm" "/usr/bin/uwsm") =
        .ok (st1, false) :=
  ⟨by decide,
   generate_units_idempotent swayDescriptor "uwsm" "/usr/bin/uwsm" []
     (by decide)⟩

/-! ## Theorems for C4 -/

/-- C4: two prepare_env runs for the same session id, with no cleanup in
between, leave a manifest whose name set is the union of both runs'
cleanup sets: the first run writes c1 (no prior file, current names ∅),
the second reads it back and writes the union with c2. -/
theorem manifest_accumulates_union (c1 c2 : Finset String)
    (h1 : ∀ n ∈ c1, pyStrip n = n ∧ n ≠ "")
    (h2 : ∀ n ∈ c2, pyStrip n = n ∧ n ≠ "") :
    readCleanupFile (writeCleanupFile
      (readCleanupFile (writeCleanupFile ∅ c1)) c2) = c1 ∪ c2 := by
  have hu1 : ∀ n ∈ (∅ : Finset String) ∪ c1, pyStrip n = n ∧ n ≠ "" := by
    simpa using h1
  rw [readCleanupFile_writeCleanupFile ∅ c1 hu1, Finset.empty_union]
  refine readCleanupFile_writeCleanupFile c1 c2 ?_
  intro n hn
  rcases Finset.mem_union.mp hn with h | h
  exacts [h1 n h, h2 n h]

/-- Witness for C4 at concrete cleanup sets. -/
theorem manifest_accumulates_union_witness :
    (∀ n ∈ ({"WAYLAND_DISPLAY", "DISPLAY"} : Finset String),
      pyStrip n = n ∧ n ≠ "") ∧
    (∀ n ∈ ({"PATH"} : Finset String), pyStrip n = n ∧ n ≠ "") ∧
    readCleanupFile (writeCleanupFile
        (readCleanupFile (writeCleanupFile ∅ {"WAYLAND_DISPLAY", "DISPLAY"}))
        {"PATH"}) =
      {"WAYLAND_DISPLAY", "DISPLAY"} ∪ {"PATH"} :=
  ⟨by decide, by decide,
   manifest_accumulates_union {"WAYLAND_DISPLAY", "DISPLAY"} {"PATH"}
     (by decide) (by decide)⟩

end Uwsm
